import Mathlib

/-!
Verification of the wanonpcap core.

Shallow embedding of the pcap anonymizer: the anonymization engine
(`DefaultAnonymizer` with its per-class methods, keystream cursor and
pseudonym maps), the Ethernet and Radiotap+802.11 frame handlers, the
pcap magic / record codec, and theorems about them.

Bytes are modelled as `Nat` (with `% 256` facts supplied as hypotheses
where byte-ness matters); payloads are `List Nat`.  The AES-CTR keystream
is abstracted as a function `Nat → Nat` giving the keystream byte at each
absolute cursor position, with the cursor threaded explicitly, which is
exactly how `cipher.Stream.XORKeyStream` consumes it.
-/

set_option maxHeartbeats 1000000
set_option maxRecDepth 10000

/-- The anonymization method (`AnonMethod` in the source): `Encrypt`,
`Pseudonym`, or `Leave`. -/
inductive AnonMethod where
  | Encrypt
  | Pseudonym
  | Leave
deriving DecidableEq, Repr

/-- XOR a byte list with the keystream starting at absolute cursor
position `pos` (models `scipher.XORKeyStream(b, b)` at that cursor). -/
def xorks (ks : Nat → Nat) : Nat → List Nat → List Nat
  | _, [] => []
  | pos, x :: v => Nat.xor x (ks pos) :: xorks ks (pos + 1) v

/-- First-match association-list lookup, modelling Go's map lookup for
the pseudonym maps (insertion never overwrites an existing key, so
first-match over the append-only list coincides with Go map lookup). -/
def lookupA : List (List Nat × List Nat) → List Nat → Option (List Nat)
  | [], _ => none
  | (k, v) :: rest, q => if k = q then some v else lookupA rest q

/-- One per-class field transformation, the common body of the three
`switch` statements in `DefaultAnonymizer.MAC/IPv4/IPv6`: returns the
transformed field, the updated pseudonym map, and the new cursor. -/
def anonField (m : AnonMethod) (mp : List (List Nat × List Nat)) (ks : Nat → Nat)
    (pos : Nat) (v : List Nat) : List Nat × List (List Nat × List Nat) × Nat :=
  match m with
  | .Encrypt => (xorks ks pos v, mp, pos + v.length)
  | .Pseudonym =>
    match lookupA mp v with
    | some pa => (pa, mp, pos)
    | none =>
      let e := xorks ks pos v
      (e, mp ++ [(v, e)], pos + v.length)
  | .Leave => (v, mp, pos)

/-- The anonymizer state (`DefaultAnonymizer` in the source): per-class
methods, keystream with cursor, the four pseudonym maps, and the
per-class occurrence counters. -/
structure DefaultAnonymizer where
  macOUI : AnonMethod
  macNIC : AnonMethod
  ipv4 : AnonMethod
  ipv6 : AnonMethod
  ks : Nat → Nat
  pos : Nat
  ouiMap : List (List Nat × List Nat)
  nicMap : List (List Nat × List Nat)
  ipv4Map : List (List Nat × List Nat)
  ipv6Map : List (List Nat × List Nat)
  nmac : Nat
  nipv4 : Nat
  nipv6 : Nat

/-- `NewDefaultAnonymizer`: fresh state with empty maps and zero counters. -/
def NewDefaultAnonymizer (macOUI macNIC ipv4 ipv6 : AnonMethod)
    (ks : Nat → Nat) : DefaultAnonymizer :=
  { macOUI := macOUI, macNIC := macNIC, ipv4 := ipv4, ipv6 := ipv6,
    ks := ks, pos := 0,
    ouiMap := [], nicMap := [], ipv4Map := [], ipv6Map := [],
    nmac := 0, nipv4 := 0, nipv6 := 0 }

/-- `DefaultAnonymizer.MAC`: the OUI half (first 3 bytes) and NIC half
(last 3 bytes) are transformed independently per their configured
methods, sharing the keystream cursor; `nmac` is incremented. -/
def DefaultAnonymizer.MAC (a : DefaultAnonymizer) (b : List Nat) :
    List Nat × DefaultAnonymizer :=
  let r1 := anonField a.macOUI a.ouiMap a.ks a.pos (b.take 3)
  let r2 := anonField a.macNIC a.nicMap a.ks r1.2.2 (b.drop 3)
  (r1.1 ++ r2.1,
    { a with ouiMap := r1.2.1, nicMap := r2.2.1, pos := r2.2.2,
             nmac := a.nmac + 1 })

/-- `DefaultAnonymizer.IPv4`. -/
def DefaultAnonymizer.IPv4 (a : DefaultAnonymizer) (b : List Nat) :
    List Nat × DefaultAnonymizer :=
  let r := anonField a.ipv4 a.ipv4Map a.ks a.pos b
  (r.1, { a with ipv4Map := r.2.1, pos := r.2.2, nipv4 := a.nipv4 + 1 })

/-- `DefaultAnonymizer.IPv6`. -/
def DefaultAnonymizer.IPv6 (a : DefaultAnonymizer) (b : List Nat) :
    List Nat × DefaultAnonymizer :=
  let r := anonField a.ipv6 a.ipv6Map a.ks a.pos b
  (r.1, { a with ipv6Map := r.2.1, pos := r.2.2, nipv6 := a.nipv6 + 1 })

/-- `isAllZeroes` from the source. -/
def isAllZeroes (b : List Nat) : Bool :=
  b.all (fun x => x = 0)

/-- A pseudonym map is well-formed for width `w` when every key and
every stored value has exactly `w` bytes (enforced in Go by the
fixed-size array types `[3]byte`, `[4]byte`, `[16]byte`). -/
def MapWF (w : Nat) (mp : List (List Nat × List Nat)) : Prop :=
  ∀ p ∈ mp, (p.1).length = w ∧ (p.2).length = w

/-- All four pseudonym maps of an anonymizer are well-formed. -/
def AnonWF (a : DefaultAnonymizer) : Prop :=
  MapWF 3 a.ouiMap ∧ MapWF 3 a.nicMap ∧ MapWF 4 a.ipv4Map ∧ MapWF 16 a.ipv6Map

/-! ## Byte-list helpers (Go seg operations) -/

/-- `b[i : i+k]` as a value. -/
def seg (b : List Nat) (i k : Nat) : List Nat :=
  (b.drop i).take k

/-- Writing `v` into `b` starting at offset `i` (the functional image of
an in-place mutation through a sub-seg). -/
def setSlice (b : List Nat) (i : Nat) (v : List Nat) : List Nat :=
  b.take i ++ v ++ b.drop (i + v.length)

/-- `copy(b, v)`: overwrite the first `min |v| |b|` bytes of `b` with `v`. -/
def overwrite (b v : List Nat) : List Nat :=
  v.take b.length ++ b.drop (min v.length b.length)

theorem xorks_length (ks : Nat → Nat) (pos : Nat) (v : List Nat) :
    (xorks ks pos v).length = v.length := by
  induction v generalizing pos with
  | nil => rfl
  | cons x v ih => simp [xorks, ih]

theorem seg_length {b : List Nat} {i k : Nat} (h : i + k ≤ b.length) :
    (seg b i k).length = k := by
  simp [seg]
  omega

theorem setSlice_length {b v : List Nat} {i : Nat} (h : i + v.length ≤ b.length) :
    (setSlice b i v).length = b.length := by
  simp [setSlice]
  omega

theorem overwrite_length (b v : List Nat) :
    (overwrite b v).length = b.length := by
  simp [overwrite]
  omega

/-! ## Handler results and errors -/

/-- Error values a handler can return.  `shortPacket x pos` models the
`slurp` error "short packet trying to slurp x bytes at pos pos";
`eof` and `unexpectedEOF` model `io.EOF` / `io.ErrUnexpectedEOF` as
produced by `binary.Read` on a too-short `bytes.Buffer`. -/
inductive HErr where
  | shortPacket (x pos : Nat)
  | eof
  | unexpectedEOF
deriving DecidableEq, Repr

/-- The process-terminating panics of the Radiotap handler. -/
inductive PanicKind where
  | reservedType
  | invalidSubtype (styp : Nat)
  | sliceOutOfRange
deriving DecidableEq, Repr

/-- Outcome of `Handle`: normal return `(n, mutated bytes, new state)`,
an error return, or a process-terminating panic. -/
inductive HandleResult where
  | ok (n : Nat) (b : List Nat) (a : DefaultAnonymizer)
  | fail (e : HErr)
  | panic (k : PanicKind)

/-- The returned boundary, when `Handle` returned normally. -/
def HandleResult.bound : HandleResult → Option Nat
  | .ok n _ _ => some n
  | _ => none

/-- Did `Handle` return an error (as opposed to ok or panic)? -/
def HandleResult.failed : HandleResult → Bool
  | .fail _ => true
  | _ => false

/-- Did `Handle` return specifically a short-packet (`slurp`) error? -/
def HandleResult.shortErr : HandleResult → Bool
  | .fail (.shortPacket _ _) => true
  | _ => false

/-! ## Ethernet handler -/

/-- `EthHeader`. -/
structure EthHeader where
  destMAC : List Nat
  srcMAC : List Nat
  etherType : Nat
  vlan : Bool
  tci : Nat
deriving DecidableEq, Repr

/-- `EthHeader.Read`: 6+6+2 bytes big-endian, re-reading the real
EtherType after a 2-byte TCI when the first EtherType is the VLAN tag
0x8100.  Shorts map to the `binary.Read` EOF behaviour: `io.EOF` when a
field read gets no bytes at all, `io.ErrUnexpectedEOF` when it gets
some but not all. -/
def ethHeaderRead (b : List Nat) : Except HErr EthHeader :=
  if b.length = 0 then .error .eof
  else if b.length < 6 then .error .unexpectedEOF
  else if b.length = 6 then .error .eof
  else if b.length < 12 then .error .unexpectedEOF
  else if b.length = 12 then .error .eof
  else if b.length < 14 then .error .unexpectedEOF
  else
    let et := 256 * b.getD 12 0 + b.getD 13 0
    if et = 0x8100 then
      if b.length = 14 then .error .eof
      else if b.length < 16 then .error .unexpectedEOF
      else if b.length = 16 then .error .eof
      else if b.length < 18 then .error .unexpectedEOF
      else .ok { destMAC := b.take 6, srcMAC := seg b 6 6,
                 etherType := 256 * b.getD 16 0 + b.getD 17 0,
                 vlan := true, tci := 256 * b.getD 14 0 + b.getD 15 0 }
    else .ok { destMAC := b.take 6, srcMAC := seg b 6 6,
               etherType := et, vlan := false, tci := 0 }

/-- A `uint16` written big-endian. -/
def u16be (x : Nat) : List Nat := [x / 256 % 256, x % 256]

/-- The bytes `EthHeader.Write` emits: dest MAC, src MAC, then (when
VLAN) the 2-byte TCI, then the EtherType.  Note the 0x8100 tag protocol
identifier is never written back. -/
def ethHeaderBytes (h : EthHeader) : List Nat :=
  h.destMAC ++ h.srcMAC ++ (if h.vlan then u16be h.tci else []) ++ u16be h.etherType

/-- The byte count `EthHeader.Write` returns: it adds 4 for the VLAN
case although only the 2 TCI bytes are written. -/
def ethHeaderN (h : EthHeader) : Nat :=
  6 + 6 + (if h.vlan then 4 else 0) + 2

/-- One iteration of the ARP sender/target loop: a 6-byte MAC field
anonymized only if not all-zero, then a 4-byte IPv4 field anonymized
unconditionally, with `slurp` bounds checks before each. -/
def arpPair (b : List Nat) (n : Nat) (a : DefaultAnonymizer) :
    Except HErr (List Nat × Nat × DefaultAnonymizer) :=
  if n + 6 > b.length then .error (.shortPacket 6 n)
  else
    let s := seg b n 6
    let step :=
      if isAllZeroes s then (b, a)
      else
        let m := DefaultAnonymizer.MAC a s
        (setSlice b n m.1, m.2)
    let b1 := step.1
    let a1 := step.2
    if n + 6 + 4 > b1.length then .error (.shortPacket 4 (n + 6))
    else
      let r := DefaultAnonymizer.IPv4 a1 (seg b1 (n + 6) 4)
      .ok (setSlice b1 (n + 6) r.1, n + 6 + 4, r.2)

/-- The ARP branch of `EthHandler.Handle`: skip 8 opaque bytes, then two
sender/target MAC+IPv4 pairs. -/
def arpBody (b : List Nat) (n : Nat) (a : DefaultAnonymizer) : HandleResult :=
  if n + 8 > b.length then .fail (.shortPacket 8 n)
  else
    match arpPair b (n + 8) a with
    | .error e => .fail e
    | .ok (b1, n1, a1) =>
      match arpPair b1 n1 a1 with
      | .error e => .fail e
      | .ok (b2, n2, a2) => .ok n2 b2 a2

/-- The IPv4 branch of `EthHandler.Handle`: 20-byte fixed header with
source (12-16) and destination (16-20) anonymized, then extra options
words according to `b[0] & 0xf` — note the source reads byte 0 of the
whole packet (the first destination-MAC byte after write-back), not the
first byte of the IP header. -/
def ip4Body (b : List Nat) (n : Nat) (a : DefaultAnonymizer) : HandleResult :=
  if n + 20 > b.length then .fail (.shortPacket 20 n)
  else
    let r1 := DefaultAnonymizer.IPv4 a (seg b (n + 12) 4)
    let b1 := setSlice b (n + 12) r1.1
    let r2 := DefaultAnonymizer.IPv4 r1.2 (seg b1 (n + 16) 4)
    let b2 := setSlice b1 (n + 16) r2.1
    let ihl := b2.getD 0 0 % 16
    if ihl > 5 then
      if n + 20 + (ihl - 5) * 4 > b2.length then
        .fail (.shortPacket ((ihl - 5) * 4) (n + 20))
      else .ok (n + 20 + (ihl - 5) * 4) b2 r2.2
    else .ok (n + 20) b2 r2.2

/-- The IPv6 branch of `EthHandler.Handle`: 40-byte fixed header with
source (8-24) and destination (24-40) anonymized. -/
def ip6Body (b : List Nat) (n : Nat) (a : DefaultAnonymizer) : HandleResult :=
  if n + 40 > b.length then .fail (.shortPacket 40 n)
  else
    let r1 := DefaultAnonymizer.IPv6 a (seg b (n + 8) 16)
    let b1 := setSlice b (n + 8) r1.1
    let r2 := DefaultAnonymizer.IPv6 r1.2 (seg b1 (n + 24) 16)
    let b2 := setSlice b1 (n + 24) r2.1
    .ok (n + 40) b2 r2.2

/-- `EthHandler.Handle`: read the Ethernet header, anonymize both MACs,
write the header back over the front of the packet, then dispatch on
EtherType (ARP 0x0806, IPv4 0x0800, IPv6 0x86dd; anything else consumes
no further bytes). -/
def ethHandle (b : List Nat) (a : DefaultAnonymizer) : HandleResult :=
  match ethHeaderRead b with
  | .error e => .fail e
  | .ok eh =>
    let m1 := DefaultAnonymizer.MAC a eh.destMAC
    let m2 := DefaultAnonymizer.MAC m1.2 eh.srcMAC
    let eh2 := { eh with destMAC := m1.1, srcMAC := m2.1 }
    let n := ethHeaderN eh2
    let b1 := overwrite b (ethHeaderBytes eh2)
    if eh2.etherType = 0x0806 then arpBody b1 n m2.2
    else if eh2.etherType = 0x0800 then ip4Body b1 n m2.2
    else if eh2.etherType = 0x86dd then ip6Body b1 n m2.2
    else .ok n b1 m2.2

/-! ## Radiotap + 802.11 handler -/

/-- `cfMACs`: control-frame subtype to number of MAC address fields. -/
def cfMACs (styp : Nat) : Option Nat :=
  if styp = 0x7 then some 1
  else if styp = 0x8 then some 2
  else if styp = 0x9 then some 2
  else if styp = 0xa then some 1
  else if styp = 0xb then some 2
  else if styp = 0xc then some 1
  else if styp = 0xd then some 1
  else if styp = 0xe then some 1
  else if styp = 0xf then some 2
  else none

/-- The `switch typ` computing `nmacs`: Management and Data have 3,
Control looks its subtype up in `cfMACs` (panicking when absent), and
the Reserved type panics. -/
def macCountOf (typ styp : Nat) : Except PanicKind Nat :=
  if typ = 0 then .ok 3
  else if typ = 1 then
    match cfMACs styp with
    | some nm => .ok nm
    | none => .error (.invalidSubtype styp)
  else if typ = 2 then .ok 3
  else .error .reservedType

/-- The `for i < nmacs` loop: anonymize `k` consecutive 6-byte MAC
fields starting at offset `n`, with a `slurp` check before each. -/
def anonMACs : Nat → List Nat → Nat → DefaultAnonymizer →
    Except HErr (List Nat × Nat × DefaultAnonymizer)
  | 0, b, n, a => .ok (b, n, a)
  | k + 1, b, n, a =>
    if n + 6 > b.length then .error (.shortPacket 6 n)
    else
      let m := DefaultAnonymizer.MAC a (seg b n 6)
      anonMACs k (setSlice b n m.1) (n + 6) m.2

/-- The tail of `Radiotap80211Handler.Handle` after the address fields
and optional 4th MAC: QoS control, carried frame control, HT control. -/
def rtTail (typ styp flags : Nat) (b : List Nat) (n : Nat)
    (a : DefaultAnonymizer) : HandleResult :=
  if typ = 2 ∧ styp / 8 % 2 = 1 ∧ n + 2 > b.length then .fail (.shortPacket 2 n)
  else
    let qdf := typ = 2 ∧ styp / 8 % 2 = 1
    let n3 := if typ = 2 ∧ styp / 8 % 2 = 1 then n + 2 else n
    if typ = 1 ∧ styp = 7 ∧ n3 + 2 > b.length then .fail (.shortPacket 2 n3)
    else
      let n4 := if typ = 1 ∧ styp = 7 then n3 + 2 else n3
      if (typ = 1 ∧ styp = 7) ∨ (qdf ∧ flags / 128 % 2 = 1) ∨
          (typ = 0 ∧ flags / 128 % 2 = 1) then
        if n4 + 4 > b.length then .fail (.shortPacket 4 n4)
        else .ok (n4 + 4) b a
      else .ok n4 b a

/-- `rh.Len`: the declared radiotap header length, the little-endian
`uint16` at bytes 2-3 of the payload. -/
def rtDeclaredLen (b : List Nat) : Nat :=
  b.getD 2 0 + 256 * b.getD 3 0

/-- `Radiotap80211Handler.Handle`: read the 8-byte radiotap header
(little-endian), start the cursor at the declared header length, read
frame control and flags, consume duration, anonymize the address
fields, then sequence control / 4th MAC / QoS / carried FC / HT
control as dictated by type, subtype and flags.  A declared header
length larger than the payload makes `b[n:]` panic in Go, modelled as
`panic .sliceOutOfRange`. -/
def rtHandle (b : List Nat) (a : DefaultAnonymizer) : HandleResult :=
  if b.length = 0 then .fail .eof
  else if b.length < 8 then .fail .unexpectedEOF
  else
    let len := rtDeclaredLen b
    if b.length < len then .panic .sliceOutOfRange
    else if b.length ≤ len then .fail .eof
    else
      let fc := b.getD len 0
      let typ := fc / 4 % 4
      let styp := fc / 16 % 16
      if b.length ≤ len + 1 then .fail .eof
      else
        let flags := b.getD (len + 1) 0
        if len + 2 + 2 > b.length then .fail (.shortPacket 2 (len + 2))
        else
          match macCountOf typ styp with
          | .error k => .panic k
          | .ok nmacs =>
            match anonMACs nmacs b (len + 4) a with
            | .error e => .fail e
            | .ok (b1, n1, a1) =>
              if typ ≠ 1 ∧ n1 + 2 > b1.length then .fail (.shortPacket 2 n1)
              else
                let n2 := if typ ≠ 1 then n1 + 2 else n1
                if typ = 2 ∧ flags % 2 = 1 ∧ flags / 2 % 2 = 1 then
                  if n2 + 6 > b1.length then .fail (.shortPacket 6 n2)
                  else
                    let m := DefaultAnonymizer.MAC a1 (seg b1 n2 6)
                    rtTail typ styp flags (setSlice b1 n2 m.1) (n2 + 6) m.2
                else rtTail typ styp flags b1 n2 a1

/-! ## pcap container codec -/

/-- `MagicLE`. -/
def MagicLE : Nat := 0xd4c3b2a1

/-- `MagicBE`. -/
def MagicBE : Nat := 0xa1b2c3d4

/-- Errors of the magic stage: `binary.Read` EOFs, the bad-magic
`FormatError`, and the (unreachable after a successful read)
`Magic.ByteOrder` panic. -/
inductive MagicErr where
  | eof
  | unexpectedEOF
  | badMagic (v : Nat)
  | panicInvalid (v : Nat)
deriving DecidableEq, Repr

/-- `Magic.Read`: a big-endian `uint32` that must equal one of the two
recognized constants. -/
def magicRead (b : List Nat) : Except MagicErr Nat :=
  if b.length = 0 then .error .eof
  else if b.length < 4 then .error .unexpectedEOF
  else
    let v := b.getD 0 0 * 16777216 + b.getD 1 0 * 65536 + b.getD 2 0 * 256 + b.getD 3 0
    if v ≠ MagicLE ∧ v ≠ MagicBE then .error (.badMagic v) else .ok v

/-- `Magic.ByteOrder`: `some true` for little-endian, `some false` for
big-endian, `none` for the panic on any other value. -/
def byteOrderLE (m : Nat) : Option Bool :=
  if m = MagicLE then some true
  else if m = MagicBE then some false
  else none

/-- A `uint32` written big-endian. -/
def u32be (x : Nat) : List Nat :=
  [x / 16777216 % 256, x / 65536 % 256, x / 256 % 256, x % 256]

/-- A `uint32` written little-endian. -/
def u32le (x : Nat) : List Nat :=
  [x % 256, x / 256 % 256, x / 65536 % 256, x / 16777216 % 256]

/-- `Magic.Write`: always writes the value `MagicBE`, in the byte order
detected from the stored magic. -/
def magicWrite (m : Nat) : Option (List Nat) :=
  (byteOrderLE m).map (fun le => if le then u32le MagicBE else u32be MagicBE)

/-- The magic stage of `run`: read the magic from the input; on failure
return with nothing written, otherwise write the output magic. Returns
the bytes written and the error, if any. -/
def runMagic (input : List Nat) : List Nat × Option MagicErr :=
  match magicRead input with
  | .error e => ([], some e)
  | .ok m =>
    match magicWrite m with
    | some w => (w, none)
    | none => ([], some (.panicInvalid m))

/-- A `uint32` read at offset `i` in byte order `le`. -/
def u32at (le : Bool) (b : List Nat) (i : Nat) : Nat :=
  if le then
    b.getD i 0 + 256 * b.getD (i + 1) 0 + 65536 * b.getD (i + 2) 0 +
      16777216 * b.getD (i + 3) 0
  else
    16777216 * b.getD i 0 + 65536 * b.getD (i + 1) 0 + 256 * b.getD (i + 2) 0 +
      b.getD (i + 3) 0

/-- A `uint32` written in byte order `le`. -/
def u32out (le : Bool) (x : Nat) : List Nat :=
  if le then u32le x else u32be x

/-- Errors of the per-record loop of `run`. -/
inductive RunErr where
  | eof
  | unexpectedEOF
  | sizeLimit (len : Nat)
  | handlerFail (e : HErr)
  | handlerPanic (k : PanicKind)
deriving DecidableEq, Repr

/-- `MaxPacketLen`. -/
def MaxPacketLen : Nat := 256 * 1024

/-- One iteration of the record loop of `run`: read the 16-byte record
header, enforce `ph.Len <= maxLen` before touching the payload, read
`ph.Len` payload bytes, run the handler, optionally truncate, and write
header plus payload.  Returns (bytes written, remaining input, error if
any, new anonymizer state). -/
def runStep (le : Bool) (maxLen : Nat)
    (hf : List Nat → DefaultAnonymizer → HandleResult) (trunc : Bool)
    (input : List Nat) (a : DefaultAnonymizer) :
    List Nat × List Nat × Option RunErr × DefaultAnonymizer :=
  if input.length = 0 then ([], input, some .eof, a)
  else if input.length < 16 then ([], input, some .unexpectedEOF, a)
  else
    let sec := u32at le input 0
    let usec := u32at le input 4
    let plen := u32at le input 8
    let olen := u32at le input 12
    if plen > maxLen then ([], input.drop 16, some (.sizeLimit plen), a)
    else
      let rest := input.drop 16
      if rest.length < plen then
        ([], rest, some (if rest.length = 0 then RunErr.eof else RunErr.unexpectedEOF), a)
      else
        match hf (rest.take plen) a with
        | .fail e => ([], rest.drop plen, some (.handlerFail e), a)
        | .panic k => ([], rest.drop plen, some (.handlerPanic k), a)
        | .ok n b2 a2 =>
          let outLen := if trunc then n else plen
          let outBody := if trunc then b2.take n else b2
          (u32out le sec ++ u32out le usec ++ u32out le outLen ++
             u32out le olen ++ outBody,
           rest.drop plen, none, a2)

/-! ## Call sequences over the anonymizer (for the cross-packet
pseudonym-consistency guarantees) -/

/-- One anonymization call, tagged with its field class. -/
inductive AnonCall where
  | mac (v : List Nat)
  | ip4 (v : List Nat)
  | ip6 (v : List Nat)
deriving DecidableEq, Repr

/-- Dispatch one call to the corresponding anonymizer operation. -/
def callStep (a : DefaultAnonymizer) : AnonCall → List Nat × DefaultAnonymizer
  | .mac v => DefaultAnonymizer.MAC a v
  | .ip4 v => DefaultAnonymizer.IPv4 a v
  | .ip6 v => DefaultAnonymizer.IPv6 a v

/-- Run a sequence of anonymization calls, collecting the outputs. -/
def runCalls (a : DefaultAnonymizer) : List AnonCall → List (List Nat) × DefaultAnonymizer
  | [] => ([], a)
  | c :: cs =>
    let r := callStep a c
    let rs := runCalls r.2 cs
    (r.1 :: rs.1, rs.2)

/-- The output a call settles to once its value is in the maps: the
lookup of the (final) pseudonym maps at the call's original value. -/
def finalOut (a : DefaultAnonymizer) : AnonCall → List Nat
  | .mac v => (lookupA a.ouiMap (v.take 3)).getD [] ++ (lookupA a.nicMap (v.drop 3)).getD []
  | .ip4 v => (lookupA a.ipv4Map v).getD []
  | .ip6 v => (lookupA a.ipv6Map v).getD []

/-- Run one class's field transformation over a list of original values
(the per-class trace of `anonField` applications), collecting outputs. -/
def runField (m : AnonMethod) (ks : Nat → Nat) :
    List (List Nat × List Nat) → Nat → List (List Nat) → List (List Nat)
  | _, _, [] => []
  | mp, pos, v :: vs =>
    let r := anonField m mp ks pos v
    r.1 :: runField m ks r.2.1 r.2.2 vs

/-! ## Lemmas about the pseudonym maps and `anonField` -/

theorem lookupA_append_some {mp : List (List Nat × List Nat)} {q o : List Nat}
    (l : List (List Nat × List Nat)) (h : lookupA mp q = some o) :
    lookupA (mp ++ l) q = some o := by
  induction mp with
  | nil => simp [lookupA] at h
  | cons p rest ih =>
    rw [List.cons_append]
    obtain ⟨k, v⟩ := p
    by_cases hk : k = q
    · simp only [lookupA, if_pos hk] at h ⊢
      exact h
    · simp only [lookupA, if_neg hk] at h ⊢
      exact ih h

theorem lookupA_append_self {mp : List (List Nat × List Nat)} {q o : List Nat}
    (h : lookupA mp q = none) :
    lookupA (mp ++ [(q, o)]) q = some o := by
  induction mp with
  | nil => simp [lookupA]
  | cons p rest ih =>
    obtain ⟨k, v⟩ := p
    by_cases hk : k = q
    · simp only [lookupA, if_pos hk] at h
      exact absurd h (by simp)
    · rw [List.cons_append]
      simp only [lookupA, if_neg hk] at h ⊢
      exact ih h

theorem lookupA_mem {mp : List (List Nat × List Nat)} {q o : List Nat}
    (h : lookupA mp q = some o) : (q, o) ∈ mp := by
  induction mp with
  | nil => simp [lookupA] at h
  | cons p rest ih =>
    obtain ⟨k, v⟩ := p
    by_cases hk : k = q
    · simp only [lookupA, if_pos hk, Option.some.injEq] at h
      subst hk h
      exact List.mem_cons_self _ _
    · simp only [lookupA, if_neg hk] at h
      exact List.mem_cons_of_mem _ (ih h)

/-- After a `Pseudonym` transformation, the map sends the original value
to the produced output. -/
theorem anonField_lookup (mp : List (List Nat × List Nat)) (ks : Nat → Nat)
    (pos : Nat) (v : List Nat) :
    lookupA (anonField .Pseudonym mp ks pos v).2.1 v =
      some (anonField .Pseudonym mp ks pos v).1 := by
  unfold anonField
  cases h : lookupA mp v with
  | some pa => simp [h]
  | none => simpa [h] using lookupA_append_self h

/-- No transformation ever changes an existing map binding. -/
theorem anonField_mono (m : AnonMethod) (mp : List (List Nat × List Nat))
    (ks : Nat → Nat) (pos : Nat) (v : List Nat) {q o : List Nat}
    (h : lookupA mp q = some o) :
    lookupA (anonField m mp ks pos v).2.1 q = some o := by
  unfold anonField
  cases m with
  | Encrypt => exact h
  | Leave => exact h
  | Pseudonym =>
    cases hv : lookupA mp v with
    | some pa => simpa [hv] using h
    | none => simpa [hv] using lookupA_append_some _ h

/-- The first occurrence of a value under `Pseudonym` is transformed
with the keystream segment at the current cursor and recorded. -/
theorem anonField_first (mp : List (List Nat × List Nat)) (ks : Nat → Nat)
    (pos : Nat) (v : List Nat) (h : lookupA mp v = none) :
    anonField .Pseudonym mp ks pos v =
      (xorks ks pos v, mp ++ [(v, xorks ks pos v)], pos + v.length) := by
  unfold anonField
  rw [h]

/-- The transformed field has the class width. -/
theorem anonField_fst_length {w : Nat} {mp : List (List Nat × List Nat)}
    (m : AnonMethod) (ks : Nat → Nat) (pos : Nat) {v : List Nat}
    (hwf : MapWF w mp) (hv : v.length = w) :
    ((anonField m mp ks pos v).1).length = w := by
  unfold anonField
  cases m with
  | Encrypt => simpa [xorks_length] using hv
  | Leave => exact hv
  | Pseudonym =>
    cases hl : lookupA mp v with
    | some pa =>
      simp only [hl]
      exact (hwf _ (lookupA_mem hl)).2
    | none => simpa [hl, xorks_length] using hv

/-- The map stays well-formed. -/
theorem anonField_map_wf {w : Nat} {mp : List (List Nat × List Nat)}
    (m : AnonMethod) (ks : Nat → Nat) (pos : Nat) {v : List Nat}
    (hwf : MapWF w mp) (hv : v.length = w) :
    MapWF w (anonField m mp ks pos v).2.1 := by
  unfold anonField
  cases m with
  | Encrypt => exact hwf
  | Leave => exact hwf
  | Pseudonym =>
    cases hl : lookupA mp v with
    | some pa => simpa [hl] using hwf
    | none =>
      simp only [hl]
      intro p hp
      rcases List.mem_append.mp hp with hp | hp
      · exact hwf _ hp
      · rcases List.mem_singleton.mp hp with rfl
        exact ⟨hv, by simpa [xorks_length] using hv⟩

/-- Every stored value has its key's length (invariant used for length
preservation from an empty map). -/
theorem anonField_entry_lengths {mp : List (List Nat × List Nat)}
    (m : AnonMethod) (ks : Nat → Nat) (pos : Nat) (v : List Nat)
    (hwf : ∀ p ∈ mp, (p.2).length = (p.1).length) :
    ∀ p ∈ (anonField m mp ks pos v).2.1, (p.2).length = (p.1).length := by
  unfold anonField
  cases m with
  | Encrypt => exact hwf
  | Leave => exact hwf
  | Pseudonym =>
    cases hl : lookupA mp v with
    | some pa => simpa [hl] using hwf
    | none =>
      simp only [hl]
      intro p hp
      rcases List.mem_append.mp hp with hp | hp
      · exact hwf _ hp
      · rcases List.mem_singleton.mp hp with rfl
        simp [xorks_length]

/-! ## Projection lemmas for the three anonymizer operations -/

@[simp] theorem MAC_fst (a : DefaultAnonymizer) (v : List Nat) :
    (a.MAC v).1 =
      (anonField a.macOUI a.ouiMap a.ks a.pos (v.take 3)).1 ++
      (anonField a.macNIC a.nicMap a.ks
        (anonField a.macOUI a.ouiMap a.ks a.pos (v.take 3)).2.2 (v.drop 3)).1 := rfl

@[simp] theorem MAC_ouiMap (a : DefaultAnonymizer) (v : List Nat) :
    ((a.MAC v).2).ouiMap = (anonField a.macOUI a.ouiMap a.ks a.pos (v.take 3)).2.1 := rfl

@[simp] theorem MAC_nicMap (a : DefaultAnonymizer) (v : List Nat) :
    ((a.MAC v).2).nicMap =
      (anonField a.macNIC a.nicMap a.ks
        (anonField a.macOUI a.ouiMap a.ks a.pos (v.take 3)).2.2 (v.drop 3)).2.1 := rfl

@[simp] theorem MAC_ipv4Map (a : DefaultAnonymizer) (v : List Nat) :
    ((a.MAC v).2).ipv4Map = a.ipv4Map := rfl

@[simp] theorem MAC_ipv6Map (a : DefaultAnonymizer) (v : List Nat) :
    ((a.MAC v).2).ipv6Map = a.ipv6Map := rfl

@[simp] theorem MAC_macOUI (a : DefaultAnonymizer) (v : List Nat) :
    ((a.MAC v).2).macOUI = a.macOUI := rfl

@[simp] theorem MAC_macNIC (a : DefaultAnonymizer) (v : List Nat) :
    ((a.MAC v).2).macNIC = a.macNIC := rfl

@[simp] theorem MAC_m4 (a : DefaultAnonymizer) (v : List Nat) :
    ((a.MAC v).2).ipv4 = a.ipv4 := rfl

@[simp] theorem MAC_m6 (a : DefaultAnonymizer) (v : List Nat) :
    ((a.MAC v).2).ipv6 = a.ipv6 := rfl

@[simp] theorem MAC_ks (a : DefaultAnonymizer) (v : List Nat) :
    ((a.MAC v).2).ks = a.ks := rfl

@[simp] theorem MAC_nmac (a : DefaultAnonymizer) (v : List Nat) :
    ((a.MAC v).2).nmac = a.nmac + 1 := rfl

@[simp] theorem MAC_nipv4 (a : DefaultAnonymizer) (v : List Nat) :
    ((a.MAC v).2).nipv4 = a.nipv4 := rfl

@[simp] theorem MAC_nipv6 (a : DefaultAnonymizer) (v : List Nat) :
    ((a.MAC v).2).nipv6 = a.nipv6 := rfl

@[simp] theorem IPv4_fst (a : DefaultAnonymizer) (v : List Nat) :
    (a.IPv4 v).1 = (anonField a.ipv4 a.ipv4Map a.ks a.pos v).1 := rfl

@[simp] theorem IPv4_ipv4Map (a : DefaultAnonymizer) (v : List Nat) :
    ((a.IPv4 v).2).ipv4Map = (anonField a.ipv4 a.ipv4Map a.ks a.pos v).2.1 := rfl

@[simp] theorem IPv4_ouiMap (a : DefaultAnonymizer) (v : List Nat) :
    ((a.IPv4 v).2).ouiMap = a.ouiMap := rfl

@[simp] theorem IPv4_nicMap (a : DefaultAnonymizer) (v : List Nat) :
    ((a.IPv4 v).2).nicMap = a.nicMap := rfl

@[simp] theorem IPv4_ipv6Map (a : DefaultAnonymizer) (v : List Nat) :
    ((a.IPv4 v).2).ipv6Map = a.ipv6Map := rfl

@[simp] theorem IPv4_macOUI (a : DefaultAnonymizer) (v : List Nat) :
    ((a.IPv4 v).2).macOUI = a.macOUI := rfl

@[simp] theorem IPv4_macNIC (a : DefaultAnonymizer) (v : List Nat) :
    ((a.IPv4 v).2).macNIC = a.macNIC := rfl

@[simp] theorem IPv4_m4 (a : DefaultAnonymizer) (v : List Nat) :
    ((a.IPv4 v).2).ipv4 = a.ipv4 := rfl

@[simp] theorem IPv4_m6 (a : DefaultAnonymizer) (v : List Nat) :
    ((a.IPv4 v).2).ipv6 = a.ipv6 := rfl

@[simp] theorem IPv4_ks (a : DefaultAnonymizer) (v : List Nat) :
    ((a.IPv4 v).2).ks = a.ks := rfl

@[simp] theorem IPv4_nmac (a : DefaultAnonymizer) (v : List Nat) :
    ((a.IPv4 v).2).nmac = a.nmac := rfl

@[simp] theorem IPv4_nipv4 (a : DefaultAnonymizer) (v : List Nat) :
    ((a.IPv4 v).2).nipv4 = a.nipv4 + 1 := rfl

@[simp] theorem IPv4_nipv6 (a : DefaultAnonymizer) (v : List Nat) :
    ((a.IPv4 v).2).nipv6 = a.nipv6 := rfl

@[simp] theorem IPv6_fst (a : DefaultAnonymizer) (v : List Nat) :
    (a.IPv6 v).1 = (anonField a.ipv6 a.ipv6Map a.ks a.pos v).1 := rfl

@[simp] theorem IPv6_ipv6Map (a : DefaultAnonymizer) (v : List Nat) :
    ((a.IPv6 v).2).ipv6Map = (anonField a.ipv6 a.ipv6Map a.ks a.pos v).2.1 := rfl

@[simp] theorem IPv6_ouiMap (a : DefaultAnonymizer) (v : List Nat) :
    ((a.IPv6 v).2).ouiMap = a.ouiMap := rfl

@[simp] theorem IPv6_nicMap (a : DefaultAnonymizer) (v : List Nat) :
    ((a.IPv6 v).2).nicMap = a.nicMap := rfl

@[simp] theorem IPv6_ipv4Map (a : DefaultAnonymizer) (v : List Nat) :
    ((a.IPv6 v).2).ipv4Map = a.ipv4Map := rfl

@[simp] theorem IPv6_macOUI (a : DefaultAnonymizer) (v : List Nat) :
    ((a.IPv6 v).2).macOUI = a.macOUI := rfl

@[simp] theorem IPv6_macNIC (a : DefaultAnonymizer) (v : List Nat) :
    ((a.IPv6 v).2).macNIC = a.macNIC := rfl

@[simp] theorem IPv6_m4 (a : DefaultAnonymizer) (v : List Nat) :
    ((a.IPv6 v).2).ipv4 = a.ipv4 := rfl

@[simp] theorem IPv6_m6 (a : DefaultAnonymizer) (v : List Nat) :
    ((a.IPv6 v).2).ipv6 = a.ipv6 := rfl

@[simp] theorem IPv6_ks (a : DefaultAnonymizer) (v : List Nat) :
    ((a.IPv6 v).2).ks = a.ks := rfl

@[simp] theorem IPv6_nmac (a : DefaultAnonymizer) (v : List Nat) :
    ((a.IPv6 v).2).nmac = a.nmac := rfl

@[simp] theorem IPv6_nipv4 (a : DefaultAnonymizer) (v : List Nat) :
    ((a.IPv6 v).2).nipv4 = a.nipv4 := rfl

@[simp] theorem IPv6_nipv6 (a : DefaultAnonymizer) (v : List Nat) :
    ((a.IPv6 v).2).nipv6 = a.nipv6 + 1 := rfl

/-- `MAC` preserves field length 6 under well-formed maps. -/
theorem MAC_fst_length {a : DefaultAnonymizer} {v : List Nat}
    (hwf : AnonWF a) (hv : v.length = 6) : ((a.MAC v).1).length = 6 := by
  rw [MAC_fst, List.length_append]
  rw [anonField_fst_length a.macOUI a.ks a.pos hwf.1 (by simp [hv]),
    anonField_fst_length a.macNIC a.ks _ hwf.2.1 (by simp [hv])]

/-- `MAC` preserves map well-formedness. -/
theorem MAC_wf {a : DefaultAnonymizer} {v : List Nat}
    (hwf : AnonWF a) (hv : v.length = 6) : AnonWF (a.MAC v).2 := by
  refine ⟨?_, ?_, ?_, ?_⟩
  · rw [MAC_ouiMap]
    exact anonField_map_wf a.macOUI a.ks a.pos hwf.1 (by simp [hv])
  · rw [MAC_nicMap]
    exact anonField_map_wf a.macNIC a.ks _ hwf.2.1 (by simp [hv])
  · rw [MAC_ipv4Map]
    exact hwf.2.2.1
  · rw [MAC_ipv6Map]
    exact hwf.2.2.2

/-- `IPv4` preserves field length 4 under well-formed maps. -/
theorem IPv4_fst_length {a : DefaultAnonymizer} {v : List Nat}
    (hwf : AnonWF a) (hv : v.length = 4) : ((a.IPv4 v).1).length = 4 := by
  rw [IPv4_fst]
  exact anonField_fst_length a.ipv4 a.ks a.pos hwf.2.2.1 hv

/-- `IPv4` preserves map well-formedness. -/
theorem IPv4_wf {a : DefaultAnonymizer} {v : List Nat}
    (hwf : AnonWF a) (hv : v.length = 4) : AnonWF (a.IPv4 v).2 := by
  refine ⟨hwf.1, hwf.2.1, ?_, hwf.2.2.2⟩
  rw [IPv4_ipv4Map]
  exact anonField_map_wf a.ipv4 a.ks a.pos hwf.2.2.1 hv

/-- `IPv6` preserves field length 16 under well-formed maps. -/
theorem IPv6_fst_length {a : DefaultAnonymizer} {v : List Nat}
    (hwf : AnonWF a) (hv : v.length = 16) : ((a.IPv6 v).1).length = 16 := by
  rw [IPv6_fst]
  exact anonField_fst_length a.ipv6 a.ks a.pos hwf.2.2.2 hv

/-- `IPv6` preserves map well-formedness. -/
theorem IPv6_wf {a : DefaultAnonymizer} {v : List Nat}
    (hwf : AnonWF a) (hv : v.length = 16) : AnonWF (a.IPv6 v).2 := by
  refine ⟨hwf.1, hwf.2.1, hwf.2.2.1, ?_⟩
  rw [IPv6_ipv6Map]
  exact anonField_map_wf a.ipv6 a.ks a.pos hwf.2.2.2 hv

/-- Fresh anonymizers are well-formed. -/
theorem NewDefaultAnonymizer_wf (m1 m2 m3 m4 : AnonMethod) (ks : Nat → Nat) :
    AnonWF (NewDefaultAnonymizer m1 m2 m3 m4 ks) := by
  refine ⟨?_, ?_, ?_, ?_⟩ <;> intro p hp <;> simp [NewDefaultAnonymizer] at hp

/-! ## Run-level lemmas for pseudonym consistency -/

theorem runCalls_length (a : DefaultAnonymizer) (cs : List AnonCall) :
    (runCalls a cs).1.length = cs.length := by
  induction cs generalizing a with
  | nil => rfl
  | cons c cs ih => simp [runCalls, ih]

theorem callStep_methods (a : DefaultAnonymizer) (c : AnonCall) :
    ((callStep a c).2).macOUI = a.macOUI ∧ ((callStep a c).2).macNIC = a.macNIC ∧
    ((callStep a c).2).ipv4 = a.ipv4 ∧ ((callStep a c).2).ipv6 = a.ipv6 := by
  cases c <;> simp [callStep]

theorem runCalls_methods (a : DefaultAnonymizer) (cs : List AnonCall) :
    ((runCalls a cs).2).macOUI = a.macOUI ∧ ((runCalls a cs).2).macNIC = a.macNIC ∧
    ((runCalls a cs).2).ipv4 = a.ipv4 ∧ ((runCalls a cs).2).ipv6 = a.ipv6 := by
  induction cs generalizing a with
  | nil => exact ⟨rfl, rfl, rfl, rfl⟩
  | cons c cs ih =>
    obtain ⟨h1, h2, h3, h4⟩ := callStep_methods a c
    obtain ⟨g1, g2, g3, g4⟩ := ih (callStep a c).2
    exact ⟨by rw [runCalls]; rw [g1, h1], by rw [runCalls]; rw [g2, h2],
      by rw [runCalls]; rw [g3, h3], by rw [runCalls]; rw [g4, h4]⟩

theorem callStep_oui_mono (a : DefaultAnonymizer) (c : AnonCall) {q o : List Nat}
    (h : lookupA a.ouiMap q = some o) : lookupA ((callStep a c).2).ouiMap q = some o := by
  cases c with
  | mac v => rw [callStep, MAC_ouiMap]; exact anonField_mono _ _ _ _ _ h
  | ip4 v => rw [callStep, IPv4_ouiMap]; exact h
  | ip6 v => rw [callStep, IPv6_ouiMap]; exact h

theorem callStep_nic_mono (a : DefaultAnonymizer) (c : AnonCall) {q o : List Nat}
    (h : lookupA a.nicMap q = some o) : lookupA ((callStep a c).2).nicMap q = some o := by
  cases c with
  | mac v => rw [callStep, MAC_nicMap]; exact anonField_mono _ _ _ _ _ h
  | ip4 v => rw [callStep, IPv4_nicMap]; exact h
  | ip6 v => rw [callStep, IPv6_nicMap]; exact h

theorem callStep_ip4_mono (a : DefaultAnonymizer) (c : AnonCall) {q o : List Nat}
    (h : lookupA a.ipv4Map q = some o) : lookupA ((callStep a c).2).ipv4Map q = some o := by
  cases c with
  | mac v => rw [callStep, MAC_ipv4Map]; exact h
  | ip4 v => rw [callStep, IPv4_ipv4Map]; exact anonField_mono _ _ _ _ _ h
  | ip6 v => rw [callStep, IPv6_ipv4Map]; exact h

theorem callStep_ip6_mono (a : DefaultAnonymizer) (c : AnonCall) {q o : List Nat}
    (h : lookupA a.ipv6Map q = some o) : lookupA ((callStep a c).2).ipv6Map q = some o := by
  cases c with
  | mac v => rw [callStep, MAC_ipv6Map]; exact h
  | ip4 v => rw [callStep, IPv4_ipv6Map]; exact h
  | ip6 v => rw [callStep, IPv6_ipv6Map]; exact anonField_mono _ _ _ _ _ h

theorem runCalls_oui_mono (a : DefaultAnonymizer) (cs : List AnonCall) {q o : List Nat}
    (h : lookupA a.ouiMap q = some o) : lookupA ((runCalls a cs).2).ouiMap q = some o := by
  induction cs generalizing a with
  | nil => exact h
  | cons c cs ih => rw [runCalls]; exact ih _ (callStep_oui_mono a c h)

theorem runCalls_nic_mono (a : DefaultAnonymizer) (cs : List AnonCall) {q o : List Nat}
    (h : lookupA a.nicMap q = some o) : lookupA ((runCalls a cs).2).nicMap q = some o := by
  induction cs generalizing a with
  | nil => exact h
  | cons c cs ih => rw [runCalls]; exact ih _ (callStep_nic_mono a c h)

theorem runCalls_ip4_mono (a : DefaultAnonymizer) (cs : List AnonCall) {q o : List Nat}
    (h : lookupA a.ipv4Map q = some o) : lookupA ((runCalls a cs).2).ipv4Map q = some o := by
  induction cs generalizing a with
  | nil => exact h
  | cons c cs ih => rw [runCalls]; exact ih _ (callStep_ip4_mono a c h)

theorem runCalls_ip6_mono (a : DefaultAnonymizer) (cs : List AnonCall) {q o : List Nat}
    (h : lookupA a.ipv6Map q = some o) : lookupA ((runCalls a cs).2).ipv6Map q = some o := by
  induction cs generalizing a with
  | nil => exact h
  | cons c cs ih => rw [runCalls]; exact ih _ (callStep_ip6_mono a c h)

/-- Under all-`Pseudonym` configuration, every output of a run equals
the final maps' lookup of that call's original value: once a value is
assigned a pseudonym, every occurrence (first or repeated) produces it. -/
theorem runCalls_out (a : DefaultAnonymizer) (cs : List AnonCall)
    (h1 : a.macOUI = .Pseudonym) (h2 : a.macNIC = .Pseudonym)
    (h3 : a.ipv4 = .Pseudonym) (h4 : a.ipv6 = .Pseudonym) :
    (runCalls a cs).1 = cs.map (finalOut (runCalls a cs).2) := by
  induction cs generalizing a with
  | nil => rfl
  | cons c cs ih =>
    obtain ⟨g1, g2, g3, g4⟩ := callStep_methods a c
    have tail := ih (callStep a c).2 (g1.trans h1) (g2.trans h2) (g3.trans h3) (g4.trans h4)
    rw [runCalls, List.map_cons]
    refine congrArg₂ _ ?_ tail
    cases c with
    | mac v =>
      have hui : lookupA ((callStep a (.mac v)).2).ouiMap (v.take 3) =
          some (anonField AnonMethod.Pseudonym a.ouiMap a.ks a.pos (v.take 3)).1 := by
        rw [callStep, MAC_ouiMap, h1]
        exact anonField_lookup _ _ _ _
      have hni : lookupA ((callStep a (.mac v)).2).nicMap (v.drop 3) =
          some (anonField AnonMethod.Pseudonym a.nicMap a.ks
            (anonField AnonMethod.Pseudonym a.ouiMap a.ks a.pos (v.take 3)).2.2 (v.drop 3)).1 := by
        rw [callStep, MAC_nicMap, h1, h2]
        exact anonField_lookup _ _ _ _
      have hui2 := runCalls_oui_mono _ cs hui
      have hni2 := runCalls_nic_mono _ cs hni
      rw [finalOut, hui2, hni2, callStep, MAC_fst]
      simp [h1, h2]
    | ip4 v =>
      have hl : lookupA ((callStep a (.ip4 v)).2).ipv4Map v =
          some (anonField a.ipv4 a.ipv4Map a.ks a.pos v).1 := by
        rw [callStep, IPv4_ipv4Map, h3]
        exact anonField_lookup _ _ _ _
      have hl2 := runCalls_ip4_mono _ cs hl
      rw [finalOut, hl2, callStep, IPv4_fst]
      simp
    | ip6 v =>
      have hl : lookupA ((callStep a (.ip6 v)).2).ipv6Map v =
          some (anonField a.ipv6 a.ipv6Map a.ks a.pos v).1 := by
        rw [callStep, IPv6_ipv6Map, h4]
        exact anonField_lookup _ _ _ _
      have hl2 := runCalls_ip6_mono _ cs hl
      rw [finalOut, hl2, callStep, IPv6_fst]
      simp

/-- Each step only ever appends to each map. -/
theorem callStep_append (a : DefaultAnonymizer) (c : AnonCall) :
    (∃ t, ((callStep a c).2).ouiMap = a.ouiMap ++ t) ∧
    (∃ t, ((callStep a c).2).nicMap = a.nicMap ++ t) ∧
    (∃ t, ((callStep a c).2).ipv4Map = a.ipv4Map ++ t) ∧
    (∃ t, ((callStep a c).2).ipv6Map = a.ipv6Map ++ t) := by
  have key : ∀ (m : AnonMethod) (mp : List (List Nat × List Nat)) (ks : Nat → Nat)
      (pos : Nat) (v : List Nat), ∃ t, (anonField m mp ks pos v).2.1 = mp ++ t := by
    intro m mp ks pos v
    unfold anonField
    cases m with
    | Encrypt => exact ⟨[], by simp⟩
    | Leave => exact ⟨[], by simp⟩
    | Pseudonym =>
      cases hl : lookupA mp v with
      | some pa => exact ⟨[], by simp [hl]⟩
      | none => exact ⟨[(v, xorks ks pos v)], by simp [hl]⟩
  cases c with
  | mac v =>
    exact ⟨by rw [callStep, MAC_ouiMap]; exact key _ _ _ _ _,
      by rw [callStep, MAC_nicMap]; exact key _ _ _ _ _,
      ⟨[], by simp [callStep]⟩, ⟨[], by simp [callStep]⟩⟩
  | ip4 v =>
    exact ⟨⟨[], by simp [callStep]⟩, ⟨[], by simp [callStep]⟩,
      by rw [callStep, IPv4_ipv4Map]; exact key _ _ _ _ _,
      ⟨[], by simp [callStep]⟩⟩
  | ip6 v =>
    exact ⟨⟨[], by simp [callStep]⟩, ⟨[], by simp [callStep]⟩,
      ⟨[], by simp [callStep]⟩,
      by rw [callStep, IPv6_ipv6Map]; exact key _ _ _ _ _⟩

/-- Over a whole run, each pseudonym map is append-only. -/
theorem runCalls_append (a : DefaultAnonymizer) (cs : List AnonCall) :
    (∃ t, ((runCalls a cs).2).ouiMap = a.ouiMap ++ t) ∧
    (∃ t, ((runCalls a cs).2).nicMap = a.nicMap ++ t) ∧
    (∃ t, ((runCalls a cs).2).ipv4Map = a.ipv4Map ++ t) ∧
    (∃ t, ((runCalls a cs).2).ipv6Map = a.ipv6Map ++ t) := by
  induction cs generalizing a with
  | nil => exact ⟨⟨[], by simp [runCalls]⟩, ⟨[], by simp [runCalls]⟩,
      ⟨[], by simp [runCalls]⟩, ⟨[], by simp [runCalls]⟩⟩
  | cons c cs ih =>
    obtain ⟨⟨t1, e1⟩, ⟨t2, e2⟩, ⟨t3, e3⟩, ⟨t4, e4⟩⟩ := callStep_append a c
    obtain ⟨⟨s1, f1⟩, ⟨s2, f2⟩, ⟨s3, f3⟩, ⟨s4, f4⟩⟩ := ih (callStep a c).2
    rw [runCalls]
    exact ⟨⟨t1 ++ s1, by rw [f1, e1, List.append_assoc]⟩,
      ⟨t2 ++ s2, by rw [f2, e2, List.append_assoc]⟩,
      ⟨t3 ++ s3, by rw [f3, e3, List.append_assoc]⟩,
      ⟨t4 ++ s4, by rw [f4, e4, List.append_assoc]⟩⟩

theorem getD_map_lt {α β : Type} (f : α → β) (l : List α) (i : Nat)
    (h : i < l.length) (d : α) (d2 : β) :
    (l.map f).getD i d2 = f (l.getD i d) := by
  induction l generalizing i with
  | nil => simp at h
  | cons x xs ih =>
    cases i with
    | zero => rfl
    | succ n => simpa using ih n (by simpa using h)

/-- Claim C1: for every class configured with `Pseudonym`, two calls in
one run with byte-identical original values produce byte-identical
outputs; each pseudonym map is append-only over the run; and a first
occurrence (value not yet in its map) is transformed with the keystream
segment at the current cursor and recorded in the map. -/
theorem c1_pseudonym_consistency (a : DefaultAnonymizer) (calls : List AnonCall)
    (h1 : a.macOUI = .Pseudonym) (h2 : a.macNIC = .Pseudonym)
    (h3 : a.ipv4 = .Pseudonym) (h4 : a.ipv6 = .Pseudonym)
    (i j : Nat) (hi : i < calls.length) (hj : j < calls.length)
    (heq : calls.getD i (.ip4 []) = calls.getD j (.ip4 []))
    (mp : List (List Nat × List Nat)) (ks : Nat → Nat) (pos : Nat) (v : List Nat)
    (hnone : lookupA mp v = none) :
    (runCalls a calls).1.getD i [] = (runCalls a calls).1.getD j [] ∧
    (∃ t, ((runCalls a calls).2).ouiMap = a.ouiMap ++ t) ∧
    (∃ t, ((runCalls a calls).2).nicMap = a.nicMap ++ t) ∧
    (∃ t, ((runCalls a calls).2).ipv4Map = a.ipv4Map ++ t) ∧
    (∃ t, ((runCalls a calls).2).ipv6Map = a.ipv6Map ++ t) ∧
    anonField .Pseudonym mp ks pos v =
      (xorks ks pos v, mp ++ [(v, xorks ks pos v)], pos + v.length) := by
  obtain ⟨p1, p2, p3, p4⟩ := runCalls_append a calls
  refine ⟨?_, p1, p2, p3, p4, anonField_first mp ks pos v hnone⟩
  rw [runCalls_out a calls h1 h2 h3 h4,
    getD_map_lt _ _ i hi (.ip4 []) [], getD_map_lt _ _ j hj (.ip4 []) [], heq]

/-- Concrete anonymizer and call list for the C1 witness. -/
def aP1 : DefaultAnonymizer :=
  NewDefaultAnonymizer .Pseudonym .Pseudonym .Pseudonym .Pseudonym (fun _ => 5)

/-- Calls for the C1 witness: the same IPv4 value at indices 0 and 2. -/
def c1calls : List AnonCall :=
  [.ip4 [9, 9, 9, 9], .mac [1, 2, 3, 4, 5, 6], .ip4 [9, 9, 9, 9]]

theorem c1_pseudonym_consistency_witness :
    (runCalls aP1 c1calls).1.getD 0 [] = (runCalls aP1 c1calls).1.getD 2 [] ∧
    (∃ t, ((runCalls aP1 c1calls).2).ouiMap = aP1.ouiMap ++ t) ∧
    (∃ t, ((runCalls aP1 c1calls).2).nicMap = aP1.nicMap ++ t) ∧
    (∃ t, ((runCalls aP1 c1calls).2).ipv4Map = aP1.ipv4Map ++ t) ∧
    (∃ t, ((runCalls aP1 c1calls).2).ipv6Map = aP1.ipv6Map ++ t) ∧
    anonField .Pseudonym [] (fun _ => 5) 0 [9, 9, 9, 9] =
      (xorks (fun _ => 5) 0 [9, 9, 9, 9],
        [] ++ [([9, 9, 9, 9], xorks (fun _ => 5) 0 [9, 9, 9, 9])],
        0 + ([9, 9, 9, 9] : List Nat).length) :=
  c1_pseudonym_consistency aP1 c1calls rfl rfl rfl rfl 0 2 (by decide) (by decide)
    rfl [] (fun _ => 5) 0 [9, 9, 9, 9] rfl

/-! ## Claim C7: distinctness and length preservation -/

/-- Pointwise XOR with one constant byte — what the keystream transform
collapses to when the keystream is position-independent. -/
def xorc (c : Nat) (v : List Nat) : List Nat :=
  v.map (fun x => Nat.xor x c)

theorem xorks_const {ks : Nat → Nat} {c : Nat} (hks : ∀ i, ks i = c)
    (pos : Nat) (v : List Nat) : xorks ks pos v = xorc c v := by
  induction v generalizing pos with
  | nil => rfl
  | cons x v ih =>
    rw [xorks, hks pos]
    exact congrArg (Nat.xor x c :: ·) (ih (pos + 1))

theorem xorc_xorc (c : Nat) (v : List Nat) : xorc c (xorc c v) = v := by
  induction v with
  | nil => rfl
  | cons x v ih =>
    show ((x ^^^ c) ^^^ c) :: xorc c (xorc c v) = x :: v
    rw [Nat.xor_cancel_right, ih]

theorem xorc_inj {c : Nat} {v1 v2 : List Nat} (h : xorc c v1 = xorc c v2) :
    v1 = v2 := by
  have := congrArg (xorc c) h
  rwa [xorc_xorc, xorc_xorc] at this

/-- Under a constant keystream, both `Encrypt` and `Pseudonym` runs
compute the pointwise XOR with that constant, provided every map entry
already respects it (vacuously true of the empty starting map). -/
theorem runField_const {m : AnonMethod} (hm : m = .Encrypt ∨ m = .Pseudonym)
    {ks : Nat → Nat} {c : Nat} (hks : ∀ i, ks i = c)
    (mp : List (List Nat × List Nat)) (pos : Nat) (vs : List (List Nat))
    (hmp : ∀ p ∈ mp, p.2 = xorc c p.1) :
    runField m ks mp pos vs = vs.map (xorc c) := by
  induction vs generalizing mp pos with
  | nil => rfl
  | cons v vs ih =>
    rcases hm with rfl | rfl
    · rw [runField, List.map_cons]
      exact congrArg₂ _ (by simp [anonField, xorks_const hks]) (ih _ _ hmp)
    · rw [runField, List.map_cons]
      refine congrArg₂ _ ?_ ?_
      · simp only [anonField]
        cases hl : lookupA mp v with
        | some pa => simpa using hmp _ (lookupA_mem hl)
        | none => simp [xorks_const hks]
      · simp only [anonField]
        cases hl : lookupA mp v with
        | some pa => simpa [hl] using ih _ _ hmp
        | none =>
          simp only [hl]
          refine ih _ _ ?_
          intro p hp
          rcases List.mem_append.mp hp with hp | hp
          · exact hmp _ hp
          · rcases List.mem_singleton.mp hp with rfl
            simp [xorks_const hks]

theorem runField_length (m : AnonMethod) (ks : Nat → Nat)
    (mp : List (List Nat × List Nat)) (pos : Nat) (vs : List (List Nat)) :
    (runField m ks mp pos vs).length = vs.length := by
  induction vs generalizing mp pos with
  | nil => rfl
  | cons v vs ih => simp [runField, ih]

/-- Each output's length equals its original's length, for any method
and keystream, provided the map's stored values match their keys'
lengths (vacuously true of the empty starting map). -/
theorem runField_lengths (m : AnonMethod) (ks : Nat → Nat)
    (mp : List (List Nat × List Nat)) (pos : Nat) (vs : List (List Nat))
    (hmp : ∀ p ∈ mp, (p.2).length = (p.1).length) :
    (runField m ks mp pos vs).map List.length = vs.map List.length := by
  induction vs generalizing mp pos with
  | nil => rfl
  | cons v vs ih =>
    rw [runField, List.map_cons, List.map_cons]
    refine congrArg₂ _ ?_ (ih _ _ (anonField_entry_lengths m ks pos v hmp))
    cases m with
    | Encrypt => simp [anonField, xorks_length]
    | Leave => rfl
    | Pseudonym =>
      simp only [anonField]
      cases hl : lookupA mp v with
      | some pa => simpa using hmp _ (lookupA_mem hl)
      | none => simp [xorks_length]

/-- Counterexample to claim C7 as stated: under `Encrypt`, a keystream
whose segments collide maps the two distinct IPv4 values `[1,0,0,0]`
and `[2,0,0,0]` to the same output in one run. -/
def ks0 : Nat → Nat := fun i => if i = 4 then 3 else 0

theorem c7_distinct_counterexample :
    (runField .Encrypt ks0 [] 0 [[1, 0, 0, 0], [2, 0, 0, 0]]).getD 0 [] =
      (runField .Encrypt ks0 [] 0 [[1, 0, 0, 0], [2, 0, 0, 0]]).getD 1 [] ∧
    ([1, 0, 0, 0] : List Nat) ≠ [2, 0, 0, 0] := by
  constructor
  · rfl
  · decide

/-- Claim C7 as amended: within one run starting from an empty map,
under `Pseudonym` or `Encrypt` every output has exactly its original's
byte length; and the outputs of two distinct originals of the class
differ whenever the keystream bytes are position-independent (for a
general keystream, colliding segments can map distinct originals to
equal outputs, as the counterexample shows). -/
theorem c7_distinct_preserve_length (m : AnonMethod)
    (hm : m = .Encrypt ∨ m = .Pseudonym)
    (ks : Nat → Nat) (c : Nat) (hks : ∀ i, ks i = c) (pos : Nat)
    (vs : List (List Nat)) (i j : Nat) (hi : i < vs.length) (hj : j < vs.length)
    (hne : vs.getD i [] ≠ vs.getD j []) :
    (runField m ks [] pos vs).getD i [] ≠ (runField m ks [] pos vs).getD j [] ∧
    (∀ (ks2 : Nat → Nat) (pos2 : Nat) (k : Nat), k < vs.length →
      ((runField m ks2 [] pos2 vs).getD k []).length = (vs.getD k []).length) := by
  constructor
  · rw [runField_const hm hks [] pos vs (by intro p hp; simp at hp),
      getD_map_lt _ _ i hi [] [], getD_map_lt _ _ j hj [] []]
    intro h
    exact hne (xorc_inj h)
  · intro ks2 pos2 k hk
    have hlen := runField_lengths m ks2 [] pos2 vs (by intro p hp; simp at hp)
    have h1 : k < (runField m ks2 [] pos2 vs).length := by
      rw [runField_length]; exact hk
    calc ((runField m ks2 [] pos2 vs).getD k []).length
        = ((runField m ks2 [] pos2 vs).map List.length).getD k 0 :=
          (getD_map_lt List.length _ k h1 [] 0).symm
      _ = (vs.map List.length).getD k 0 := by rw [hlen]
      _ = (vs.getD k []).length := getD_map_lt List.length vs k hk [] 0

theorem c7_distinct_preserve_length_witness :
    (runField .Pseudonym (fun _ => 7) [] 0 [[1, 2, 3, 4], [5, 6, 7, 8]]).getD 0 [] ≠
      (runField .Pseudonym (fun _ => 7) [] 0 [[1, 2, 3, 4], [5, 6, 7, 8]]).getD 1 [] ∧
    (∀ (ks2 : Nat → Nat) (pos2 : Nat) (k : Nat),
      k < ([[1, 2, 3, 4], [5, 6, 7, 8]] : List (List Nat)).length →
      ((runField .Pseudonym ks2 [] pos2 [[1, 2, 3, 4], [5, 6, 7, 8]]).getD k []).length =
        (([[1, 2, 3, 4], [5, 6, 7, 8]] : List (List Nat)).getD k []).length) :=
  c7_distinct_preserve_length .Pseudonym (Or.inr rfl) (fun _ => 7) 7 (fun _ => rfl)
    0 [[1, 2, 3, 4], [5, 6, 7, 8]] 0 1 (by decide) (by decide) (by decide)

/-! ## Claim C4: magic round-trip -/

/-- All entries of a payload are bytes. -/
def Bytes (b : List Nat) : Prop := ∀ x ∈ b, x < 256

/-- Claim C4: when the input magic is recognized, the four magic bytes
written to the output equal the four magic bytes read from the input
(for both byte orders); an unrecognized magic fails with the bad-magic
`FormatError` with nothing written. -/
theorem c4_magic_mirror (input : List Nat) (hb : Bytes input) :
    (∀ m, magicRead input = .ok m → runMagic input = (input.take 4, none)) ∧
    (∀ v, magicRead input = .error (.badMagic v) →
      runMagic input = ([], some (.badMagic v))) := by
  constructor
  · intro m hm
    match input, hb with
    | [], hb => simp [magicRead] at hm
    | [b0], hb => simp [magicRead] at hm
    | [b0, b1], hb => simp [magicRead] at hm
    | [b0, b1, b2], hb => simp [magicRead] at hm
    | b0 :: b1 :: b2 :: b3 :: rest, hb =>
      have h0 : b0 < 256 := hb b0 (by simp)
      have h1 : b1 < 256 := hb b1 (by simp)
      have h2 : b2 < 256 := hb b2 (by simp)
      have h3 : b3 < 256 := hb b3 (by simp)
      simp only [magicRead, List.length_cons, List.getD_cons_zero,
        List.getD_cons_succ] at hm
      split at hm
      · omega
      · split at hm
        · omega
        · split at hm
          · exact absurd hm (by simp)
          · rename_i hrec
            rw [not_and_or, not_ne_iff, not_ne_iff] at hrec
            rcases hrec with hle | hbe
            · simp only [MagicLE] at hle
              have e0 : b0 = 0xd4 := by omega
              have e1 : b1 = 0xc3 := by omega
              have e2 : b2 = 0xb2 := by omega
              have e3 : b3 = 0xa1 := by omega
              subst e0 e1 e2 e3
              have hr : magicRead (212 :: 195 :: 178 :: 161 :: rest) = .ok MagicLE := by
                simp only [magicRead, List.length_cons, List.getD_cons_zero,
                  List.getD_cons_succ]
                norm_num [MagicLE, MagicBE]
              rw [runMagic, hr]
              norm_num [magicWrite, byteOrderLE, u32le, MagicLE, MagicBE]
            · simp only [MagicBE] at hbe
              have e0 : b0 = 0xa1 := by omega
              have e1 : b1 = 0xb2 := by omega
              have e2 : b2 = 0xc3 := by omega
              have e3 : b3 = 0xd4 := by omega
              subst e0 e1 e2 e3
              have hr : magicRead (161 :: 178 :: 195 :: 212 :: rest) = .ok MagicBE := by
                simp only [magicRead, List.length_cons, List.getD_cons_zero,
                  List.getD_cons_succ]
                norm_num [MagicLE, MagicBE]
              rw [runMagic, hr]
              norm_num [magicWrite, byteOrderLE, u32be, MagicLE, MagicBE]
  · intro v hv
    rw [runMagic, hv]

theorem c4_magic_mirror_witness :
    (∀ m, magicRead [0xd4, 0xc3, 0xb2, 0xa1] = .ok m →
      runMagic [0xd4, 0xc3, 0xb2, 0xa1] = (([0xd4, 0xc3, 0xb2, 0xa1] : List Nat).take 4, none)) ∧
    (∀ v, magicRead [0xd4, 0xc3, 0xb2, 0xa1] = .error (.badMagic v) →
      runMagic [0xd4, 0xc3, 0xb2, 0xa1] = ([], some (.badMagic v))) :=
  c4_magic_mirror [0xd4, 0xc3, 0xb2, 0xa1] (by unfold Bytes; decide)

/-! ## Claim C8: size limit checked before the payload -/

/-- Claim C8: a record header declaring a captured length above the
configured maximum makes the record loop fail with the size-limit
error, with nothing written to the output and only the 16 header bytes
consumed from the input — the payload is never read. -/
theorem c8_size_limit (le : Bool) (maxLen : Nat)
    (hf : List Nat → DefaultAnonymizer → HandleResult) (trunc : Bool)
    (input : List Nat) (a : DefaultAnonymizer)
    (hlen : 16 ≤ input.length) (hover : u32at le input 8 > maxLen) :
    runStep le maxLen hf trunc input a =
      ([], input.drop 16, some (.sizeLimit (u32at le input 8)), a) := by
  rw [runStep]
  rw [if_neg (by omega), if_neg (by omega), if_pos hover]

theorem c8_size_limit_witness :
    runStep true MaxPacketLen ethHandle true
      ([0, 0, 0, 0, 0, 0, 0, 0, 0, 0, 8, 0, 0, 0, 0, 0] ++ [1, 2, 3])
      (NewDefaultAnonymizer .Leave .Leave .Leave .Leave (fun _ => 0)) =
      ([], (([0, 0, 0, 0, 0, 0, 0, 0, 0, 0, 8, 0, 0, 0, 0, 0] ++ [1, 2, 3]) : List Nat).drop 16,
        some (.sizeLimit (u32at true ([0, 0, 0, 0, 0, 0, 0, 0, 0, 0, 8, 0, 0, 0, 0, 0] ++ [1, 2, 3]) 8)),
        NewDefaultAnonymizer .Leave .Leave .Leave .Leave (fun _ => 0)) :=
  c8_size_limit true MaxPacketLen ethHandle true _ _ (by decide) (by decide)

/-! ## Pointwise facts about `setSlice`, `overwrite`, `seg` -/

theorem getD_drop (b : List Nat) (i t d : Nat) :
    (b.drop i).getD t d = b.getD (i + t) d := by
  induction i generalizing b with
  | zero => simp
  | succ n ih =>
    cases b with
    | nil => simp
    | cons x xs =>
      rw [List.drop_succ_cons, ih xs]
      have : n + 1 + t = (n + t) + 1 := by omega
      rw [this, List.getD_cons_succ]

theorem getD_take (b : List Nat) {k t : Nat} (h : t < k) (d : Nat) :
    (b.take k).getD t d = b.getD t d := by
  induction k generalizing b t with
  | zero => omega
  | succ n ih =>
    cases b with
    | nil => simp
    | cons x xs =>
      rw [List.take_succ_cons]
      cases t with
      | zero => rfl
      | succ m =>
        rw [List.getD_cons_succ, List.getD_cons_succ]
        exact ih xs (by omega)

theorem getD_seg (b : List Nat) {i k t : Nat} (h : t < k) (d : Nat) :
    (seg b i k).getD t d = b.getD (i + t) d := by
  simp only [seg]
  rw [getD_take _ h d, getD_drop]

theorem getD_setSlice_below {b v : List Nat} {i j : Nat} (hj : j ≤ b.length)
    (hij : i < j) (d : Nat) : (setSlice b j v).getD i d = b.getD i d := by
  rw [setSlice, List.append_assoc, List.getD_append _ _ _ _ (by simp; omega)]
  exact getD_take b (by omega) d

theorem getD_setSlice_above {b v : List Nat} {i j : Nat} (hj : j ≤ b.length)
    (hij : j + v.length ≤ i) (d : Nat) : (setSlice b j v).getD i d = b.getD i d := by
  rw [setSlice, List.append_assoc, List.getD_append_right _ _ _ _ (by simp; omega),
    List.getD_append_right _ _ _ _ (by simp; omega), getD_drop]
  congr 1
  simp
  omega

theorem getD_setSlice_inside {b v : List Nat} {j t : Nat} (hj : j ≤ b.length)
    (ht : t < v.length) (d : Nat) :
    (setSlice b j v).getD (j + t) d = v.getD t d := by
  rw [setSlice, List.append_assoc,
    List.getD_append_right _ _ _ _ (by simp),
    List.getD_append _ _ _ _ (by simp; omega)]
  congr 1
  simp
  omega

theorem getD_overwrite_above {b v : List Nat} {i : Nat} (hi : v.length ≤ i)
    (d : Nat) : (overwrite b v).getD i d = b.getD i d := by
  rw [overwrite, List.getD_append_right _ _ _ _ (by simp; omega), getD_drop]
  congr 1
  simp
  omega

/-- A segment is determined by pointwise `getD` values. -/
theorem seg_eq_of_getD {b : List Nat} {i k : Nat} {w : List Nat}
    (hk : i + k ≤ b.length) (hw : w.length = k)
    (h : ∀ t, t < k → b.getD (i + t) 0 = w.getD t 0) : seg b i k = w := by
  apply List.ext_getElem
  · rw [seg_length hk, hw]
  · intro t h1 h2
    rw [seg_length hk] at h1
    rw [← List.getD_eq_getElem _ 0 h2,
      ← List.getD_eq_getElem _ 0 (by rw [seg_length hk]; omega)]
    rw [getD_seg b h1 0]
    exact h t h1

/-- Two equal-length lists agreeing pointwise on a window have equal
segments there. -/
theorem seg_congr {b b2 : List Nat} {i k : Nat} (hlen : b.length = b2.length)
    (hk : i + k ≤ b.length)
    (h : ∀ t, i ≤ t → t < i + k → b.getD t 0 = b2.getD t 0) :
    seg b i k = seg b2 i k :=
  seg_eq_of_getD hk (seg_length (by omega)) (fun t ht => by
    rw [getD_seg b2 ht 0]
    exact h (i + t) (by omega) (by omega))

/-! ## Claim C2: IPv4 options nibble -/

/-- A Leave-everything anonymizer with a trivial keystream. -/
def aLeave : DefaultAnonymizer :=
  NewDefaultAnonymizer .Leave .Leave .Leave .Leave (fun _ => 0)

/-- A 38-byte untagged Ethernet+IPv4 packet whose destination MAC
starts with byte `0x06` while the IPv4 header (offset 14) starts with
`0x45`, i.e. a genuine IHL nibble of 5. -/
def c2input : List Nat :=
  [6, 0, 0, 0, 0, 1] ++ [0, 0, 0, 0, 0, 2] ++ [8, 0] ++
    ([69, 0, 0, 20] ++ List.replicate 16 9) ++ [7, 7, 7, 7]

/-- Claim C2 fails on the code: the handler computes the options length
from `b[0] & 0xf` — byte 0 of the whole packet, i.e. the (anonymized)
destination MAC's first byte — not from the IP header's first byte.  On
`c2input` the IP header-length nibble is 5, so the claim demands
boundary 34, but the code consumes `(6-5)*4` extra bytes (nibble of the
MAC byte `0x06`) and returns 38. -/
theorem c2_ihl_wrong_byte_eval :
    (ethHandle c2input aLeave).bound = some 38 ∧
    c2input.getD 14 0 % 16 = 5 ∧
    c2input.getD 0 0 % 16 = 6 ∧
    c2input.length = 38 := by
  refine ⟨?_, by decide, by decide, by decide⟩
  rfl

/-! ## Claim C3: short reads -/

/-- Counterexample to claim C3 as stated: a 3-byte payload makes the
Ethernet handler fail inside the `binary.Read` of the Ethernet header,
with an `io.ErrUnexpectedEOF`-style error, not a ShortPacketError. -/
theorem c3_short_counterexample :
    ethHandle [0, 0, 0] aLeave = .fail .unexpectedEOF ∧
    (ethHandle [0, 0, 0] aLeave).shortErr = false := by
  constructor
  · rfl
  · rfl

/-- Claim C3 as amended: `slurp`-guarded reads past the end of the
payload fail with a ShortPacketError carrying the position and the byte
count needed (shown for the first ARP-branch slurp of the Ethernet
handler and the duration slurp of the Radiotap handler); the fixed
header reads instead fail with `io.EOF`-style errors that carry no
offset, for both handlers. -/
theorem c3_short_reads (b : List Nat) (a : DefaultAnonymizer) :
    (b.length < 14 →
      (ethHandle b a).failed = true ∧ (ethHandle b a).shortErr = false) ∧
    (∀ eh, ethHeaderRead b = .ok eh → eh.etherType = 0x0806 → eh.vlan = false →
      b.length < 22 → ethHandle b a = .fail (.shortPacket 8 14)) ∧
    (8 ≤ b.length → b.getD 2 0 + 256 * b.getD 3 0 + 2 ≤ b.length →
      b.length < b.getD 2 0 + 256 * b.getD 3 0 + 4 →
      rtHandle b a = .fail (.shortPacket 2 (b.getD 2 0 + 256 * b.getD 3 0 + 2))) ∧
    (b.length < 8 →
      (rtHandle b a).failed = true ∧ (rtHandle b a).shortErr = false) := by
  refine ⟨?_, ?_, ?_, ?_⟩
  · intro hlt
    have he : ∃ e, ethHeaderRead b = .error e ∧
        (e = HErr.eof ∨ e = HErr.unexpectedEOF) := by
      unfold ethHeaderRead
      repeat' split
      all_goals first
        | exact ⟨_, rfl, Or.inl rfl⟩
        | exact ⟨_, rfl, Or.inr rfl⟩
    obtain ⟨e, he1, he2⟩ := he
    simp only [ethHandle, he1]
    rcases he2 with rfl | rfl <;> exact ⟨rfl, rfl⟩
  · intro eh hread hET hvlan hlen
    simp only [ethHandle, hread]
    rw [if_pos (by simpa using hET)]
    rw [arpBody, if_pos (by rw [overwrite_length]; simp [ethHeaderN, hvlan]; omega)]
    simp [ethHeaderN, hvlan]
  · intro h8 hfits hshort
    simp only [rtHandle, rtDeclaredLen]
    rw [if_neg (by omega), if_neg (by omega), if_neg (by omega), if_neg (by omega),
      if_neg (by omega), if_pos (by omega)]
  · intro hlt
    by_cases h0 : b.length = 0
    · simp only [rtHandle]
      rw [if_pos h0]
      exact ⟨rfl, rfl⟩
    · simp only [rtHandle]
      rw [if_neg h0, if_pos hlt]
      exact ⟨rfl, rfl⟩

/-- 18-byte non-VLAN ARP frame for the C3 witness. -/
def c3arp : List Nat :=
  [1, 2, 3, 4, 5, 6] ++ [7, 8, 9, 10, 11, 12] ++ [8, 6] ++ [0, 0, 0, 0]

theorem c3_short_reads_witness :
    ethHandle c3arp aLeave = .fail (.shortPacket 8 14) :=
  (c3_short_reads c3arp aLeave).2.1
    { destMAC := [1, 2, 3, 4, 5, 6], srcMAC := [7, 8, 9, 10, 11, 12],
      etherType := 8 * 256 + 6, vlan := false, tci := 0 }
    rfl rfl rfl (by decide)

/-! ## The address-field loop -/

/-- Executing the `for i < nmacs` loop from a well-formed state with
enough bytes: it succeeds, advances the cursor by `6*k`, preserves the
buffer length and well-formedness, and increments `nmac` exactly `k`
times. -/
theorem anonMACs_ok (k : Nat) :
    ∀ (b : List Nat) (n : Nat) (a : DefaultAnonymizer), AnonWF a →
    n + 6 * k ≤ b.length →
    ∃ b2 a2, anonMACs k b n a = .ok (b2, n + 6 * k, a2) ∧
      b2.length = b.length ∧ AnonWF a2 ∧ a2.nmac = a.nmac + k := by
  induction k with
  | zero =>
    intro b n a hwf hlen
    exact ⟨b, a, by simp [anonMACs], rfl, hwf, by omega⟩
  | succ k ih =>
    intro b n a hwf hlen
    have hs : (seg b n 6).length = 6 := seg_length (by omega)
    have hm1 : ((DefaultAnonymizer.MAC a (seg b n 6)).1).length = 6 :=
      MAC_fst_length hwf hs
    have hset : (setSlice b n (DefaultAnonymizer.MAC a (seg b n 6)).1).length
        = b.length := by
      rw [setSlice_length]
      rw [hm1]
      omega
    obtain ⟨b2, a2, h1, h2, h3, h4⟩ :=
      ih (setSlice b n (DefaultAnonymizer.MAC a (seg b n 6)).1) (n + 6)
        (DefaultAnonymizer.MAC a (seg b n 6)).2 (MAC_wf hwf hs)
        (by rw [hset]; omega)
    refine ⟨b2, a2, ?_, by rw [h2, hset], h3, by rw [h4, MAC_nmac]; omega⟩
    have he : n + 6 + 6 * k = n + 6 * (k + 1) := by omega
    rw [anonMACs, if_neg (by omega), h1, he]

theorem macCountOf_two (styp : Nat) : macCountOf 2 styp = .ok 3 := by
  simp [macCountOf]

/-- After the address fields, a Data QoS frame with order bit 0 consumes
exactly the 2 QoS-control bytes. -/
theorem rtTail_data_qos (styp flags : Nat) (b : List Nat) (n : Nat)
    (a : DefaultAnonymizer) (hqos : styp / 8 % 2 = 1)
    (hord : flags / 128 % 2 = 0) (hlen : n + 2 ≤ b.length) :
    rtTail 2 styp flags b n a = .ok (n + 2) b a := by
  simp only [rtTail]
  repeat' split
  all_goals try (simp only [true_and] at *)
  all_goals first
    | rfl
    | omega

/-- Claim C5: a Data frame with toDS=1, fromDS=1, a QoS subtype and
order flag 0, with enough payload, yields boundary
`rtDeclaredLen b + 1 + 1 + 2 + 24 + 2 + 2 = rtDeclaredLen b + 32`. -/
theorem c5_data_qos_boundary (b : List Nat) (a : DefaultAnonymizer)
    (hwf : AnonWF a)
    (hlen : rtDeclaredLen b + 32 ≤ b.length)
    (htyp : b.getD (rtDeclaredLen b) 0 / 4 % 4 = 2)
    (hqos : b.getD (rtDeclaredLen b) 0 / 16 % 16 / 8 % 2 = 1)
    (htods : b.getD (rtDeclaredLen b + 1) 0 % 2 = 1)
    (hfromds : b.getD (rtDeclaredLen b + 1) 0 / 2 % 2 = 1)
    (hord : b.getD (rtDeclaredLen b + 1) 0 / 128 % 2 = 0) :
    ∃ b2 a2, rtHandle b a = .ok (rtDeclaredLen b + 32) b2 a2 := by
  obtain ⟨b1, a1, hM, hlen1, hwf1, _⟩ :=
    anonMACs_ok 3 b (rtDeclaredLen b + 4) a hwf (by omega)
  simp only [rtHandle]
  rw [if_neg (by omega), if_neg (by omega), if_neg (by omega), if_neg (by omega),
    if_neg (by omega), if_neg (by omega), htyp]
  split
  · rename_i k hk
    rw [macCountOf_two] at hk
    exact absurd hk (by simp)
  · rename_i nmacs hk
    rw [macCountOf_two] at hk
    have hn3 : nmacs = 3 := by
      have := hk
      simp at this
      omega
    subst hn3
    split
    · rename_i e he
      rw [hM] at he
      exact absurd he (by simp)
    · rename_i bb nn aa he
      rw [hM] at he
      simp only [Except.ok.injEq, Prod.mk.injEq] at he
      obtain ⟨rfl, rfl, rfl⟩ := he
      rw [if_neg (by rw [hlen1]; omega)]
      rw [if_pos (show (2 : Nat) ≠ 1 by omega)]
      rw [if_pos ⟨rfl, htods, hfromds⟩]
      rw [if_neg (by rw [hlen1]; omega)]
      have hm6 : ((a1.MAC (seg b1 (rtDeclaredLen b + 4 + 6 * 3 + 2) 6)).1).length = 6 :=
        MAC_fst_length hwf1 (seg_length (by rw [hlen1]; omega))
      have hsetlen : (setSlice b1 (rtDeclaredLen b + 4 + 6 * 3 + 2)
          (a1.MAC (seg b1 (rtDeclaredLen b + 4 + 6 * 3 + 2) 6)).1).length = b.length := by
        rw [setSlice_length (by rw [hm6, hlen1]; omega), hlen1]
      rw [rtTail_data_qos _ _ _ _ _ hqos hord (by rw [hsetlen]; omega)]
      refine ⟨setSlice b1 (rtDeclaredLen b + 4 + 6 * 3 + 2)
          (a1.MAC (seg b1 (rtDeclaredLen b + 4 + 6 * 3 + 2) 6)).1,
        (a1.MAC (seg b1 (rtDeclaredLen b + 4 + 6 * 3 + 2) 6)).2, ?_⟩
      congr 1

/-- C5 witness frame: radiotap length 8, fc 0x88 (Data, QoS subtype 8),
flags 0x03 (toDS, fromDS), 40 bytes. -/
def c5frame : List Nat :=
  [0, 0, 8, 0, 0, 0, 0, 0] ++ [136, 3] ++ List.replicate 30 1

theorem c5_data_qos_boundary_witness :
    ∃ b2 a2, rtHandle c5frame aLeave = .ok (rtDeclaredLen c5frame + 32) b2 a2 :=
  c5_data_qos_boundary c5frame aLeave (NewDefaultAnonymizer_wf _ _ _ _ _)
    (by decide) (by decide) (by decide) (by decide) (by decide) (by decide)

/-! ## Claim C6: reserved type and control subtypes -/

theorem rtTail_wrapper (flags : Nat) (b : List Nat) (n : Nat)
    (a : DefaultAnonymizer) (hlen : n + 6 ≤ b.length) :
    rtTail 1 7 flags b n a = .ok (n + 6) b a := by
  simp only [rtTail]
  repeat' split
  all_goals try (simp only [true_and] at *)
  all_goals first
    | rfl
    | omega
    | (congr 1; omega)
    | (simp_all; omega)
    | simp_all

theorem rtTail_control_other (styp flags : Nat) (b : List Nat) (n : Nat)
    (a : DefaultAnonymizer) (h7 : styp ≠ 7) :
    rtTail 1 styp flags b n a = .ok n b a := by
  simp only [rtTail]
  repeat' split
  all_goals try (simp only [true_and] at *)
  all_goals first
    | rfl
    | omega
    | (congr 1; omega)
    | (simp_all; omega)
    | simp_all

theorem macCountOf_reserved (styp : Nat) :
    macCountOf 3 styp = .error .reservedType := by
  simp [macCountOf]

theorem macCountOf_control_none {styp : Nat} (h : cfMACs styp = none) :
    macCountOf 1 styp = .error (.invalidSubtype styp) := by
  simp [macCountOf, h]

theorem macCountOf_control_some {styp k : Nat} (h : cfMACs styp = some k) :
    macCountOf 1 styp = .ok k := by
  simp [macCountOf, h]

/-- Claim C6: once the type dispatch is reached, a Reserved (3) type
panics; a Control (1) frame whose subtype is absent from `cfMACs`
panics; and for a Control subtype present in the table, the handler
anonymizes exactly the table's number of 6-byte address fields, visible
as the `nmac` counter increment. -/
theorem c6_reserved_and_subtypes (b : List Nat) (a : DefaultAnonymizer) :
    (8 ≤ b.length → rtDeclaredLen b + 4 ≤ b.length →
      b.getD (rtDeclaredLen b) 0 / 4 % 4 = 3 →
      rtHandle b a = .panic .reservedType) ∧
    (8 ≤ b.length → rtDeclaredLen b + 4 ≤ b.length →
      b.getD (rtDeclaredLen b) 0 / 4 % 4 = 1 →
      cfMACs (b.getD (rtDeclaredLen b) 0 / 16 % 16) = none →
      rtHandle b a = .panic (.invalidSubtype (b.getD (rtDeclaredLen b) 0 / 16 % 16))) ∧
    (∀ k, AnonWF a → 8 ≤ b.length →
      b.getD (rtDeclaredLen b) 0 / 4 % 4 = 1 →
      cfMACs (b.getD (rtDeclaredLen b) 0 / 16 % 16) = some k →
      rtDeclaredLen b + 4 + 6 * k +
        (if b.getD (rtDeclaredLen b) 0 / 16 % 16 = 7 then 6 else 0) ≤ b.length →
      ∃ b2 a2, rtHandle b a =
        .ok (rtDeclaredLen b + 4 + 6 * k +
          (if b.getD (rtDeclaredLen b) 0 / 16 % 16 = 7 then 6 else 0)) b2 a2 ∧
        a2.nmac = a.nmac + k) := by
  refine ⟨?_, ?_, ?_⟩
  · intro h8 hfits htyp
    simp only [rtHandle]
    rw [if_neg (by omega), if_neg (by omega), if_neg (by omega), if_neg (by omega),
      if_neg (by omega), if_neg (by omega), htyp]
    split
    · rename_i k hk
      rw [macCountOf_reserved] at hk
      simp only [Except.error.injEq] at hk
      rw [hk]
    · rename_i nmacs hk
      rw [macCountOf_reserved] at hk
      exact absurd hk (by simp)
  · intro h8 hfits htyp hcf
    simp only [rtHandle]
    rw [if_neg (by omega), if_neg (by omega), if_neg (by omega), if_neg (by omega),
      if_neg (by omega), if_neg (by omega), htyp]
    split
    · rename_i k hk
      rw [macCountOf_control_none hcf] at hk
      simp only [Except.error.injEq] at hk
      rw [hk]
    · rename_i nmacs hk
      rw [macCountOf_control_none hcf] at hk
      exact absurd hk (by simp)
  · intro k hwf h8 htyp hcf hlen
    by_cases h7 : b.getD (rtDeclaredLen b) 0 / 16 % 16 = 7
    · rw [if_pos h7] at hlen ⊢
      obtain ⟨b1, a1, hM, hlen1, hwf1, hnm⟩ :=
        anonMACs_ok k b (rtDeclaredLen b + 4) a hwf (by omega)
      simp only [rtHandle]
      rw [if_neg (by omega), if_neg (by omega), if_neg (by omega), if_neg (by omega),
        if_neg (by omega), if_neg (by omega), htyp]
      split
      · rename_i e he
        rw [macCountOf_control_some hcf] at he
        exact absurd he (by simp)
      · rename_i nmacs he
        rw [macCountOf_control_some hcf] at he
        simp only [Except.ok.injEq] at he
        subst he
        split
        · rename_i e he2
          rw [hM] at he2
          exact absurd he2 (by simp)
        · rename_i bb nn aa he2
          rw [hM] at he2
          simp only [Except.ok.injEq, Prod.mk.injEq] at he2
          obtain ⟨rfl, rfl, rfl⟩ := he2
          rw [if_neg (by omega), if_neg (by omega), if_neg (by omega), h7,
            rtTail_wrapper _ _ _ _ (by rw [hlen1]; omega)]
          exact ⟨b1, a1, rfl, by omega⟩
    · rw [if_neg h7] at hlen ⊢
      obtain ⟨b1, a1, hM, hlen1, hwf1, hnm⟩ :=
        anonMACs_ok k b (rtDeclaredLen b + 4) a hwf (by omega)
      simp only [rtHandle]
      rw [if_neg (by omega), if_neg (by omega), if_neg (by omega), if_neg (by omega),
        if_neg (by omega), if_neg (by omega), htyp]
      split
      · rename_i e he
        rw [macCountOf_control_some hcf] at he
        exact absurd he (by simp)
      · rename_i nmacs he
        rw [macCountOf_control_some hcf] at he
        simp only [Except.ok.injEq] at he
        subst he
        split
        · rename_i e he2
          rw [hM] at he2
          exact absurd he2 (by simp)
        · rename_i bb nn aa he2
          rw [hM] at he2
          simp only [Except.ok.injEq, Prod.mk.injEq] at he2
          obtain ⟨rfl, rfl, rfl⟩ := he2
          rw [if_neg (by omega), if_neg (by omega), if_neg (by omega),
            rtTail_control_other _ _ _ _ _ h7]
          exact ⟨b1, a1, by norm_num, by omega⟩

/-- Reserved-type frame: fc byte 12 gives type 3. -/
def c6frame : List Nat :=
  [0, 0, 8, 0, 0, 0, 0, 0] ++ [12, 0] ++ [0, 0]

/-- Control/ACK frame: fc 0xD4 gives type 1, subtype 0xd (1 MAC). -/
def c6ack : List Nat :=
  [0, 0, 8, 0, 0, 0, 0, 0] ++ [212, 0] ++ [0, 0] ++ List.replicate 6 5

theorem c6_reserved_and_subtypes_witness :
    rtHandle c6frame aLeave = .panic .reservedType ∧
    (∃ b2 a2, rtHandle c6ack aLeave =
      .ok (rtDeclaredLen c6ack + 4 + 6 * 1 +
        (if c6ack.getD (rtDeclaredLen c6ack) 0 / 16 % 16 = 7 then 6 else 0)) b2 a2 ∧
      a2.nmac = aLeave.nmac + 1) :=
  ⟨(c6_reserved_and_subtypes c6frame aLeave).1 (by decide) (by decide) (by decide),
   (c6_reserved_and_subtypes c6ack aLeave).2.2 1 (NewDefaultAnonymizer_wf _ _ _ _ _)
     (by decide) (by decide) (by decide) (by decide)⟩

/-! ## Claim C9: ARP sender/target fields -/

/-- One ARP sender/target pair from a well-formed state: consumes
6+4 bytes, anonymizes the IPv4 field always and the MAC field only when
not all-zero (tracked by the counters), leaves an all-zero MAC
byte-identical, and touches nothing outside `[n, n+10)`. -/
theorem arpPair_ok (b : List Nat) (n : Nat) (a : DefaultAnonymizer)
    (hwf : AnonWF a) (hlen : n + 10 ≤ b.length) :
    ∃ b2 a2, arpPair b n a = .ok (b2, n + 6 + 4, a2) ∧
      b2.length = b.length ∧ AnonWF a2 ∧
      a2.nipv4 = a.nipv4 + 1 ∧
      a2.nmac = a.nmac + (if isAllZeroes (seg b n 6) then 0 else 1) ∧
      (isAllZeroes (seg b n 6) = true → seg b2 n 6 = seg b n 6) ∧
      (∀ t, t < n → b2.getD t 0 = b.getD t 0) ∧
      (∀ t, n + 10 ≤ t → b2.getD t 0 = b.getD t 0) := by
  by_cases hz : isAllZeroes (seg b n 6) = true
  · simp only [arpPair]
    rw [if_neg (show ¬n + 6 > b.length by omega), if_pos hz]
    dsimp only []
    rw [if_neg (show ¬n + 6 + 4 > b.length by omega)]
    have hseg4 : (seg b (n + 6) 4).length = 4 := seg_length (by omega)
    have hout4 : ((a.IPv4 (seg b (n + 6) 4)).1).length = 4 :=
      IPv4_fst_length hwf hseg4
    have hb2len : (setSlice b (n + 6) (a.IPv4 (seg b (n + 6) 4)).1).length
        = b.length := by
      rw [setSlice_length]
      rw [hout4]
      omega
    refine ⟨_, _, rfl, hb2len, IPv4_wf hwf hseg4, by simp, by simp [hz], ?_, ?_, ?_⟩
    · intro _
      refine (seg_congr hb2len.symm ?_ ?_).symm
      · omega
      · intro t h1 h2
        exact (getD_setSlice_below (by omega) (by omega) 0).symm
    · intro t ht
      exact getD_setSlice_below (by omega) (by omega) 0
    · intro t ht
      exact getD_setSlice_above (by omega) (by rw [hout4]; omega) 0
  · simp only [arpPair]
    rw [if_neg (show ¬n + 6 > b.length by omega), if_neg hz]
    dsimp only []
    have hseg6 : (seg b n 6).length = 6 := seg_length (by omega)
    have hout6 : ((a.MAC (seg b n 6)).1).length = 6 := MAC_fst_length hwf hseg6
    have hb1len : (setSlice b n (a.MAC (seg b n 6)).1).length = b.length := by
      rw [setSlice_length]
      rw [hout6]
      omega
    have hwf1 : AnonWF (a.MAC (seg b n 6)).2 := MAC_wf hwf hseg6
    rw [if_neg (by rw [hb1len]; omega)]
    have hseg4 : (seg (setSlice b n (a.MAC (seg b n 6)).1) (n + 6) 4).length = 4 :=
      seg_length (by rw [hb1len]; omega)
    have hout4 : (((a.MAC (seg b n 6)).2.IPv4
        (seg (setSlice b n (a.MAC (seg b n 6)).1) (n + 6) 4)).1).length = 4 :=
      IPv4_fst_length hwf1 hseg4
    have hb2len : (setSlice (setSlice b n (a.MAC (seg b n 6)).1) (n + 6)
        ((a.MAC (seg b n 6)).2.IPv4
          (seg (setSlice b n (a.MAC (seg b n 6)).1) (n + 6) 4)).1).length
        = b.length := by
      rw [setSlice_length]
      · exact hb1len
      · rw [hout4, hb1len]
        omega
    refine ⟨_, _, rfl, hb2len, IPv4_wf hwf1 hseg4, by simp, by simp [hz], ?_, ?_, ?_⟩
    · intro hzz
      exact absurd hzz hz
    · intro t ht
      rw [getD_setSlice_below (by rw [hb1len]; omega) (by omega) 0,
        getD_setSlice_below (by omega) (by omega) 0]
    · intro t ht
      rw [getD_setSlice_above (by rw [hb1len]; omega) (by rw [hout4]; omega) 0,
        getD_setSlice_above (by omega) (by rw [hout6]; omega) 0]

/-- The ARP branch from a well-formed state: skips 8 opaque bytes, runs
both sender/target pairs, ends at `n + 28`; IPv4 fields are anonymized
unconditionally (counter +2), MAC fields only when not all-zero, and
all-zero MAC fields come out byte-identical. -/
theorem arpBody_ok (b : List Nat) (n : Nat) (a : DefaultAnonymizer)
    (hwf : AnonWF a) (hlen : n + 28 ≤ b.length) :
    ∃ b2 a2, arpBody b n a = .ok (n + 8 + 6 + 4 + 6 + 4) b2 a2 ∧
      b2.length = b.length ∧ AnonWF a2 ∧
      a2.nipv4 = a.nipv4 + 2 ∧
      a2.nmac = a.nmac + (if isAllZeroes (seg b (n + 8) 6) then 0 else 1) +
        (if isAllZeroes (seg b (n + 18) 6) then 0 else 1) ∧
      (isAllZeroes (seg b (n + 8) 6) = true →
        seg b2 (n + 8) 6 = seg b (n + 8) 6) ∧
      (isAllZeroes (seg b (n + 18) 6) = true →
        seg b2 (n + 18) 6 = seg b (n + 18) 6) := by
  obtain ⟨c1, a1, h1, l1, w1, i1, m1, z1, lo1, hi1⟩ :=
    arpPair_ok b (n + 8) a hwf (by omega)
  obtain ⟨c2, a2, h2, l2, w2, i2, m2, z2, lo2, hi2⟩ :=
    arpPair_ok c1 (n + 8 + 6 + 4) a1 w1 (by rw [l1]; omega)
  have hseg : seg c1 (n + 8 + 6 + 4) 6 = seg b (n + 8 + 6 + 4) 6 := by
    refine seg_congr (by rw [l1]) (by rw [l1]; omega) ?_
    intro t h1t h2t
    exact hi1 t (by omega)
  have e18 : n + 8 + 6 + 4 = n + 18 := by omega
  rw [e18] at hseg
  have hfirst : seg c2 (n + 8) 6 = seg c1 (n + 8) 6 := by
    refine seg_congr (by rw [l2]) (by rw [l2, l1]; omega) ?_
    intro t h1t h2t
    exact lo2 t (by omega)
  simp only [arpBody]
  rw [if_neg (show ¬n + 8 > b.length by omega), h1]
  dsimp only []
  rw [h2]
  dsimp only []
  refine ⟨c2, a2, rfl, l2.trans l1, w2, by omega, ?_, ?_, ?_⟩
  · rw [e18, hseg] at m2
    cases hz1 : isAllZeroes (seg b (n + 8) 6) <;>
      cases hz2 : isAllZeroes (seg b (n + 18) 6) <;>
      simp only [hz1, hz2, if_true, if_false] at m1 m2 ⊢ <;> omega
  · intro hz
    rw [hfirst]
    exact z1 hz
  · intro hz
    rw [e18] at z2
    rw [hseg] at z2
    exact z2 hz

/-- `ethHeaderRead` unfolded (definitionally). -/
theorem ethHeaderRead_eq (b : List Nat) :
    ethHeaderRead b =
      (if b.length = 0 then .error .eof
      else if b.length < 6 then .error .unexpectedEOF
      else if b.length = 6 then .error .eof
      else if b.length < 12 then .error .unexpectedEOF
      else if b.length = 12 then .error .eof
      else if b.length < 14 then .error .unexpectedEOF
      else
        if 256 * b.getD 12 0 + b.getD 13 0 = 0x8100 then
          if b.length = 14 then .error .eof
          else if b.length < 16 then .error .unexpectedEOF
          else if b.length = 16 then .error .eof
          else if b.length < 18 then .error .unexpectedEOF
          else .ok { destMAC := b.take 6, srcMAC := seg b 6 6,
                     etherType := 256 * b.getD 16 0 + b.getD 17 0,
                     vlan := true, tci := 256 * b.getD 14 0 + b.getD 15 0 }
        else .ok { destMAC := b.take 6, srcMAC := seg b 6 6,
                   etherType := 256 * b.getD 12 0 + b.getD 13 0,
                   vlan := false, tci := 0 }) := rfl

/-- Facts recoverable from a successful Ethernet header read. -/
theorem ethHeaderRead_facts {b : List Nat} {eh : EthHeader}
    (h : ethHeaderRead b = .ok eh) :
    eh.destMAC = b.take 6 ∧ eh.srcMAC = seg b 6 6 ∧
    (eh.vlan = true → 18 ≤ b.length) ∧ (eh.vlan = false → 14 ≤ b.length) := by
  rw [ethHeaderRead_eq] at h
  by_cases c0 : b.length = 0
  · rw [if_pos c0] at h
    exact Except.noConfusion h
  rw [if_neg c0] at h
  by_cases c1 : b.length < 6
  · rw [if_pos c1] at h
    exact Except.noConfusion h
  rw [if_neg c1] at h
  by_cases c2 : b.length = 6
  · rw [if_pos c2] at h
    exact Except.noConfusion h
  rw [if_neg c2] at h
  by_cases c3 : b.length < 12
  · rw [if_pos c3] at h
    exact Except.noConfusion h
  rw [if_neg c3] at h
  by_cases c4 : b.length = 12
  · rw [if_pos c4] at h
    exact Except.noConfusion h
  rw [if_neg c4] at h
  by_cases c5 : b.length < 14
  · rw [if_pos c5] at h
    exact Except.noConfusion h
  rw [if_neg c5] at h
  by_cases cET : 256 * b.getD 12 0 + b.getD 13 0 = 0x8100
  · rw [if_pos cET] at h
    by_cases c6 : b.length = 14
    · rw [if_pos c6] at h
      exact Except.noConfusion h
    rw [if_neg c6] at h
    by_cases c7 : b.length < 16
    · rw [if_pos c7] at h
      exact Except.noConfusion h
    rw [if_neg c7] at h
    by_cases c8 : b.length = 16
    · rw [if_pos c8] at h
      exact Except.noConfusion h
    rw [if_neg c8] at h
    by_cases c9 : b.length < 18
    · rw [if_pos c9] at h
      exact Except.noConfusion h
    rw [if_neg c9] at h
    rw [Except.ok.injEq] at h
    subst h
    exact ⟨rfl, rfl, fun _ => by omega, fun hv => Bool.noConfusion hv⟩
  · rw [if_neg cET] at h
    rw [Except.ok.injEq] at h
    subst h
    exact ⟨rfl, rfl, fun hv => Bool.noConfusion hv, fun _ => by omega⟩

/-- The write-back bytes have length 14, or 16 for a VLAN header. -/
theorem ethHeaderBytes_length {h : EthHeader} (hd : h.destMAC.length = 6)
    (hs : h.srcMAC.length = 6) :
    (ethHeaderBytes h).length = if h.vlan then 16 else 14 := by
  cases hv : h.vlan <;> simp [ethHeaderBytes, u16be, hd, hs, hv]

/-- Claim C9: on an ARP frame every all-zero sender/target MAC is left
byte-identical (whatever the configured methods), the other MAC fields
are anonymized (one `nmac` increment each, plus the two for the
Ethernet header MACs), and both IPv4 fields are anonymized
unconditionally (`nipv4` + 2); the boundary is the header length plus
28. -/
theorem c9_arp_zero_macs (b : List Nat) (a : DefaultAnonymizer) (eh : EthHeader)
    (hread : ethHeaderRead b = .ok eh) (hwf : AnonWF a)
    (hET : eh.etherType = 0x0806)
    (hlen : ethHeaderN eh + 28 ≤ b.length) :
    ∃ b2 a2, ethHandle b a = .ok (ethHeaderN eh + 28) b2 a2 ∧
      a2.nipv4 = a.nipv4 + 2 ∧
      a2.nmac = a.nmac + 2 +
        (if isAllZeroes (seg b (ethHeaderN eh + 8) 6) then 0 else 1) +
        (if isAllZeroes (seg b (ethHeaderN eh + 18) 6) then 0 else 1) ∧
      (isAllZeroes (seg b (ethHeaderN eh + 8) 6) = true →
        seg b2 (ethHeaderN eh + 8) 6 = seg b (ethHeaderN eh + 8) 6) ∧
      (isAllZeroes (seg b (ethHeaderN eh + 18) 6) = true →
        seg b2 (ethHeaderN eh + 18) 6 = seg b (ethHeaderN eh + 18) 6) := by
  obtain ⟨hdm, hsm, _, _⟩ := ethHeaderRead_facts hread
  have hblen : 14 ≤ b.length := by
    have := hlen
    unfold ethHeaderN at this
    omega
  have hd6 : eh.destMAC.length = 6 := by
    rw [hdm]
    simp
    omega
  have hs6 : eh.srcMAC.length = 6 := by
    rw [hsm]
    exact seg_length (by omega)
  have hd6a : ((a.MAC eh.destMAC).1).length = 6 := MAC_fst_length hwf hd6
  have hwfa : AnonWF (a.MAC eh.destMAC).2 := MAC_wf hwf hd6
  have hs6a : (((a.MAC eh.destMAC).2.MAC eh.srcMAC).1).length = 6 :=
    MAC_fst_length hwfa hs6
  have hwfb : AnonWF ((a.MAC eh.destMAC).2.MAC eh.srcMAC).2 := MAC_wf hwfa hs6
  have hwb : (ethHeaderBytes { eh with
      destMAC := (a.MAC eh.destMAC).1,
      srcMAC := ((a.MAC eh.destMAC).2.MAC eh.srcMAC).1 }).length ≤ ethHeaderN eh := by
    rw [ethHeaderBytes_length hd6a hs6a]
    unfold ethHeaderN
    cases eh.vlan <;> simp
  have hol : (overwrite b (ethHeaderBytes { eh with
      destMAC := (a.MAC eh.destMAC).1,
      srcMAC := ((a.MAC eh.destMAC).2.MAC eh.srcMAC).1 })).length = b.length :=
    overwrite_length _ _
  have htrans : ∀ i k, ethHeaderN eh ≤ i → i + k ≤ b.length →
      seg (overwrite b (ethHeaderBytes { eh with
        destMAC := (a.MAC eh.destMAC).1,
        srcMAC := ((a.MAC eh.destMAC).2.MAC eh.srcMAC).1 })) i k = seg b i k := by
    intro i k hik hik2
    refine seg_congr (by rw [hol]) (by rw [hol]; omega) ?_
    intro t h1t h2t
    exact getD_overwrite_above (by omega) 0
  obtain ⟨b2, a2, hbody, l2, w2, i2, m2, z1, z2⟩ :=
    arpBody_ok (overwrite b (ethHeaderBytes { eh with
      destMAC := (a.MAC eh.destMAC).1,
      srcMAC := ((a.MAC eh.destMAC).2.MAC eh.srcMAC).1 }))
      (ethHeaderN eh) ((a.MAC eh.destMAC).2.MAC eh.srcMAC).2 hwfb
      (by rw [hol]; omega)
  have hs1 := htrans (ethHeaderN eh + 8) 6 (by omega) (by omega)
  have hs2 := htrans (ethHeaderN eh + 18) 6 (by omega) (by omega)
  rw [hs1] at z1 m2
  rw [hs2] at z2 m2
  simp only [ethHandle, hread]
  rw [if_pos (by simpa using hET)]
  have hN : ethHeaderN { eh with
      destMAC := (a.MAC eh.destMAC).1,
      srcMAC := ((a.MAC eh.destMAC).2.MAC eh.srcMAC).1 } = ethHeaderN eh := rfl
  rw [hN, hbody]
  refine ⟨b2, a2, ?_, by simp [i2], ?_, ?_, ?_⟩
  · congr 1
  · rw [m2]
    simp only [MAC_nmac]
  · intro hz
    exact z1 hz
  · intro hz
    exact z2 hz

/-- 42-byte ARP frame with an all-zero sender MAC (probe-style) and a
non-zero target MAC. -/
def c9arp : List Nat :=
  [1, 2, 3, 4, 5, 6] ++ [7, 8, 9, 10, 11, 12] ++ [8, 6] ++
  [0, 1, 8, 0, 6, 4, 0, 1] ++
  [0, 0, 0, 0, 0, 0] ++ [10, 0, 0, 1] ++ [222, 173, 190, 239, 1, 2] ++ [10, 0, 0, 2]

/-- The header `ethHeaderRead` produces for `c9arp`. -/
def c9eh : EthHeader :=
  { destMAC := [1, 2, 3, 4, 5, 6], srcMAC := [7, 8, 9, 10, 11, 12],
    etherType := 2054, vlan := false, tci := 0 }

theorem c9_arp_zero_macs_witness :
    ∃ b2 a2, ethHandle c9arp aLeave = .ok (ethHeaderN c9eh + 28) b2 a2 ∧
      a2.nipv4 = aLeave.nipv4 + 2 ∧
      a2.nmac = aLeave.nmac + 2 +
        (if isAllZeroes (seg c9arp (ethHeaderN c9eh + 8) 6) then 0 else 1) +
        (if isAllZeroes (seg c9arp (ethHeaderN c9eh + 18) 6) then 0 else 1) ∧
      (isAllZeroes (seg c9arp (ethHeaderN c9eh + 8) 6) = true →
        seg b2 (ethHeaderN c9eh + 8) 6 = seg c9arp (ethHeaderN c9eh + 8) 6) ∧
      (isAllZeroes (seg c9arp (ethHeaderN c9eh + 18) 6) = true →
        seg b2 (ethHeaderN c9eh + 18) 6 = seg c9arp (ethHeaderN c9eh + 18) 6) :=
  c9_arp_zero_macs c9arp aLeave c9eh rfl (NewDefaultAnonymizer_wf _ _ _ _ _)
    rfl (by decide)

/-! ## Claim C10: VLAN header write-back -/

/-- Claim C10: for a VLAN-tagged frame the write-back emits only 16
bytes — anonymized destination and source MAC, the TCI at offsets
12-14, and the real EtherType at offsets 14-16, omitting the 0x8100 tag
protocol identifier — while the returned count treats the header as 18
bytes; bytes from offset 16 on keep their original values, and
subsequent parsing (shown for the ARP branch) starts at 18, giving
boundary 46 = 18 + 28. -/
theorem c10_vlan_writeback (b : List Nat) (a : DefaultAnonymizer) (eh : EthHeader)
    (hread : ethHeaderRead b = .ok eh) (hvlan : eh.vlan = true) (hwf : AnonWF a) :
    (eh.etherType ≠ 0x0806 → eh.etherType ≠ 0x0800 → eh.etherType ≠ 0x86dd →
      ethHandle b a = .ok 18
        (overwrite b (ethHeaderBytes { eh with
          destMAC := (a.MAC eh.destMAC).1,
          srcMAC := ((a.MAC eh.destMAC).2.MAC eh.srcMAC).1 }))
        ((a.MAC eh.destMAC).2.MAC eh.srcMAC).2) ∧
    (ethHeaderBytes { eh with
      destMAC := (a.MAC eh.destMAC).1,
      srcMAC := ((a.MAC eh.destMAC).2.MAC eh.srcMAC).1 }).length = 16 ∧
    (∀ t, 16 ≤ t →
      (overwrite b (ethHeaderBytes { eh with
        destMAC := (a.MAC eh.destMAC).1,
        srcMAC := ((a.MAC eh.destMAC).2.MAC eh.srcMAC).1 })).getD t 0 = b.getD t 0) ∧
    seg (ethHeaderBytes { eh with
      destMAC := (a.MAC eh.destMAC).1,
      srcMAC := ((a.MAC eh.destMAC).2.MAC eh.srcMAC).1 }) 12 4 =
      u16be eh.tci ++ u16be eh.etherType ∧
    (eh.etherType = 0x0806 → 46 ≤ b.length →
      ∃ b2 a2, ethHandle b a = .ok 46 b2 a2) := by
  obtain ⟨hdm, hsm, hv18, _⟩ := ethHeaderRead_facts hread
  have hblen : 18 ≤ b.length := hv18 hvlan
  have hd6 : eh.destMAC.length = 6 := by
    rw [hdm]
    simp
    omega
  have hs6 : eh.srcMAC.length = 6 := by
    rw [hsm]
    exact seg_length (by omega)
  have hd6a : ((a.MAC eh.destMAC).1).length = 6 := MAC_fst_length hwf hd6
  have hwfa : AnonWF (a.MAC eh.destMAC).2 := MAC_wf hwf hd6
  have hs6a : (((a.MAC eh.destMAC).2.MAC eh.srcMAC).1).length = 6 :=
    MAC_fst_length hwfa hs6
  have hwfb : AnonWF ((a.MAC eh.destMAC).2.MAC eh.srcMAC).2 := MAC_wf hwfa hs6
  have hwb16 : (ethHeaderBytes { eh with
      destMAC := (a.MAC eh.destMAC).1,
      srcMAC := ((a.MAC eh.destMAC).2.MAC eh.srcMAC).1 }).length = 16 := by
    rw [ethHeaderBytes_length hd6a hs6a]
    simp [hvlan]
  have hN18 : ethHeaderN { eh with
      destMAC := (a.MAC eh.destMAC).1,
      srcMAC := ((a.MAC eh.destMAC).2.MAC eh.srcMAC).1 } = 18 := by
    unfold ethHeaderN
    simp [hvlan]
  refine ⟨?_, hwb16, ?_, ?_, ?_⟩
  · intro h1 h2 h3
    simp only [ethHandle, hread]
    rw [if_neg (by simpa using h1), if_neg (by simpa using h2),
      if_neg (by simpa using h3), hN18]
  · intro t ht
    exact getD_overwrite_above (by rw [hwb16]; omega) 0
  · have hsplit : ethHeaderBytes { eh with
        destMAC := (a.MAC eh.destMAC).1,
        srcMAC := ((a.MAC eh.destMAC).2.MAC eh.srcMAC).1 } =
        ((a.MAC eh.destMAC).1 ++ ((a.MAC eh.destMAC).2.MAC eh.srcMAC).1) ++
          (u16be eh.tci ++ u16be eh.etherType) := by
      simp [ethHeaderBytes, hvlan, List.append_assoc]
    rw [hsplit, seg]
    have h12 : ((a.MAC eh.destMAC).1 ++
        ((a.MAC eh.destMAC).2.MAC eh.srcMAC).1).length = 12 := by
      rw [List.length_append, hd6a, hs6a]
    rw [← h12, List.drop_left]
    apply List.take_of_length_le
    simp [u16be]
  · intro hET hlen46
    obtain ⟨b2, a2, hbody, _, _, _, _, _, _⟩ :=
      arpBody_ok (overwrite b (ethHeaderBytes { eh with
        destMAC := (a.MAC eh.destMAC).1,
        srcMAC := ((a.MAC eh.destMAC).2.MAC eh.srcMAC).1 }))
        18 ((a.MAC eh.destMAC).2.MAC eh.srcMAC).2 hwfb
        (by rw [overwrite_length]; omega)
    simp only [ethHandle, hread]
    rw [if_pos (by simpa using hET), hN18, hbody]
    exact ⟨b2, a2, rfl⟩

/-- 20-byte VLAN-tagged frame: TCI 0xAABB, real EtherType 0x1234,
payload bytes 77, 88 at offsets 18-20 and original bytes 0x12 0x34 at
offsets 16-18. -/
def c10vlan : List Nat :=
  [1, 2, 3, 4, 5, 6] ++ [7, 8, 9, 10, 11, 12] ++ [129, 0] ++ [170, 187] ++
  [18, 52] ++ [77, 88]

/-- The header `ethHeaderRead` produces for `c10vlan`. -/
def c10eh : EthHeader :=
  { destMAC := [1, 2, 3, 4, 5, 6], srcMAC := [7, 8, 9, 10, 11, 12],
    etherType := 4660, vlan := true, tci := 43707 }

theorem c10_vlan_writeback_witness :
    (c10eh.etherType ≠ 0x0806 → c10eh.etherType ≠ 0x0800 → c10eh.etherType ≠ 0x86dd →
      ethHandle c10vlan aLeave = .ok 18
        (overwrite c10vlan (ethHeaderBytes { c10eh with
          destMAC := (aLeave.MAC c10eh.destMAC).1,
          srcMAC := ((aLeave.MAC c10eh.destMAC).2.MAC c10eh.srcMAC).1 }))
        ((aLeave.MAC c10eh.destMAC).2.MAC c10eh.srcMAC).2) ∧
    (ethHeaderBytes { c10eh with
      destMAC := (aLeave.MAC c10eh.destMAC).1,
      srcMAC := ((aLeave.MAC c10eh.destMAC).2.MAC c10eh.srcMAC).1 }).length = 16 ∧
    (∀ t, 16 ≤ t →
      (overwrite c10vlan (ethHeaderBytes { c10eh with
        destMAC := (aLeave.MAC c10eh.destMAC).1,
        srcMAC := ((aLeave.MAC c10eh.destMAC).2.MAC c10eh.srcMAC).1 })).getD t 0 =
        c10vlan.getD t 0) ∧
    seg (ethHeaderBytes { c10eh with
      destMAC := (aLeave.MAC c10eh.destMAC).1,
      srcMAC := ((aLeave.MAC c10eh.destMAC).2.MAC c10eh.srcMAC).1 }) 12 4 =
      u16be c10eh.tci ++ u16be c10eh.etherType ∧
    (c10eh.etherType = 0x0806 → 46 ≤ c10vlan.length →
      ∃ b2 a2, ethHandle c10vlan aLeave = .ok 46 b2 a2) :=
  c10_vlan_writeback c10vlan aLeave c10eh rfl rfl (NewDefaultAnonymizer_wf _ _ _ _ _)
